import Mathlib

/-!
Verification development for the change-detection pipeline of the
`version-control` repository (`src/watcher/detector.rs` and the CRDT
operation model of `src/crdt/operations.rs`).

Shallow embedding conventions:
* Rust `String` content is modelled as a list of bytes (`List Nat`),
  exactly as Rust's UTF-8 byte buffer.  `str::chars().count()` is the
  number of non-continuation bytes; `char_indices` boundaries are the
  indices of non-continuation bytes.
* Paths (`PathBuf`) are lists of components (`List String`);
  `path.file_name()` is the last component and `path.display()` joins
  the components with `/`.
* The process-wide mutable singletons (`PREV_STATE`, `LAST_OPERATION`,
  `TEMP_CONTENT_CACHE`, `LAST_RENAME_SOURCE`, `FILE_HASH_CACHE`,
  `RAPID_SEQUENCE`, the Lamport clock, and the UUID supply) are gathered
  into an explicit `DetectorState` record threaded through every
  function.  Concurrent maps become association lists with
  insert-replacing and key-removing operations.
* Disk reads (`read_file_fast`) are a function `PathT → Option Content`
  held in the environment: `none` models a read or UTF-8 decode failure.
  Wall-clock timings, colored printing and the memory-map handle pool
  have no observable effect on the emitted operations and are omitted.
* `oplog.append` is an environment function returning `Except String
  Bool`, mirroring `Result<bool>`.
-/

/-- Rust string content as its UTF-8 byte buffer. -/
abbrev Content := List Nat

/-- A filesystem path as its list of components. -/
abbrev PathT := List String

/-- UTF-8 continuation byte test (`0x80..=0xBF`). -/
def isContByte (b : Nat) : Bool := 128 ≤ b && b < 192

/-- `str::chars().count()`: the number of UTF-8 character boundaries. -/
def charCount (bs : Content) : Nat := (bs.filter (fun b => !(isContByte b))).length

/-- `str::is_ascii()`. -/
def isAsciiB (bs : Content) : Bool := bs.all (fun b => b < 128)

/-- Byte indices of the character boundaries (`str::char_indices` offsets). -/
def charBoundaries (bs : Content) : List Nat :=
  (List.range bs.length).filter (fun i => !(isContByte (bs.getD i 0)))

/-- Byte index of the character with index `c` (the content length when
`c` is at or past the end). -/
def charToByteIdx (bs : Content) (c : Nat) : Nat := (charBoundaries bs).getD c bs.length

/-- Rust slice `l[a..b]`. -/
def sliceB (l : Content) (a b : Nat) : Content := (l.take b).drop a

/-- Length of the longest common prefix of two byte lists
(`iter().zip(..).take_while(|(a,b)| a == b).count()`). -/
def commonPrefixLen : List Nat → List Nat → Nat
  | a :: as_, b :: bs => if a = b then commonPrefixLen as_ bs + 1 else 0
  | _, _ => 0

/-- ASCII bytes of a (ASCII-only) string literal, used to write concrete
byte contents readably. -/
def strBytes (s : String) : Content := s.data.map Char.toNat

/-- `u8::to_ascii_lowercase` on a byte. -/
def asciiLower (n : Nat) : Nat := if 65 ≤ n ∧ n ≤ 90 then n + 32 else n

/-- The lowercased byte codes of a path's file name
(`path.file_name()` → `to_ascii_lowercase`); empty when there is no
file name. -/
def nameCodes (p : PathT) : List Nat :=
  ((p.getLast?).getD "").data.map (fun c => asciiLower c.toNat)

/-- Byte codes of an ASCII pattern literal. -/
def pat (s : String) : List Nat := s.data.map Char.toNat

/-- `haystack.contains(needle)` on byte lists. -/
def containsSeq (needle : List Nat) : List Nat → Bool
  | [] => needle.isPrefixOf []
  | a :: rest => needle.isPrefixOf (a :: rest) || containsSeq needle rest

/-- `is_temp_path` from `src/watcher/detector.rs`: editor atomic-save
scratch-file patterns on the lowercased file name. -/
def is_temp_path (p : PathT) : Bool :=
  match p.getLast? with
  | none => false
  | some _ =>
    let l := nameCodes p
    (pat "~").isSuffixOf l
    || (pat ".tmp").isSuffixOf l
    || (pat ".temp").isSuffixOf l
    || (pat ".swp").isSuffixOf l
    || (pat ".swx").isSuffixOf l
    || (pat ".bak").isSuffixOf l
    || (pat ".bk").isSuffixOf l
    || (pat "~").isPrefixOf l
    || (pat ".#").isPrefixOf l
    || (pat ".~").isPrefixOf l
    || (pat ".tmp").isPrefixOf l
    || (pat ".goutputstream").isPrefixOf l
    || containsSeq (pat "goutputstream") l

/-- The ignored component names of `is_trackable`. -/
def ignoredComponents : List (List Nat) :=
  [pat ".git", pat ".dx", pat ".dx_client", pat "target", pat "node_modules"]

/-- `is_trackable`: no path component is one of the ignored names
(case-insensitively). -/
def is_trackable (p : PathT) : Bool :=
  !(p.any (fun seg =>
    ignoredComponents.any (fun ig => ig = seg.data.map (fun c => asciiLower c.toNat))))

/-- `should_track` simply forwards to `is_trackable`. -/
def should_track (p : PathT) : Bool := is_trackable p

/-- `path_to_string` / `path.display()`: join the components. -/
def path_to_string (p : PathT) : String := String.intercalate "/" p

/-- `path_key` forwards to `path_to_string`. -/
def path_key (p : PathT) : String := path_to_string p

/-- `FileSnapshot` of `src/watcher/detector.rs`. -/
structure FileSnapshot where
  content : Content
  byte_len : Nat
  char_len : Nat
  char_to_byte : List Nat
  line_starts : List Nat
deriving DecidableEq

/-- `line_starts` as computed by `build_snapshot_fast`: the first entry is
0 and every newline at byte index `j` contributes the character count of
the first `j+1` bytes.  (For ASCII content the source pushes the byte
position `j+1`, which equals that character count.) -/
def lineStartsOf (bs : Content) : List Nat :=
  0 :: ((List.range bs.length).filter (fun j => bs.getD j 0 = 10)).map
    (fun j => if isAsciiB bs then j + 1 else charCount (bs.take (j + 1)))

/-- `build_snapshot_fast`. -/
def build_snapshot_fast (bs : Content) : FileSnapshot :=
  { content := bs
    byte_len := bs.length
    char_len := if isAsciiB bs then bs.length else charCount bs
    char_to_byte := if isAsciiB bs then [] else charBoundaries bs ++ [bs.length]
    line_starts := lineStartsOf bs }

/-- `build_snapshot_minimal` (used on the rapid single-edit and new-file
paths): skips the line-start and char-to-byte indices. -/
def build_snapshot_minimal (bs : Content) : FileSnapshot :=
  { content := bs
    byte_len := bs.length
    char_len := charCount bs
    char_to_byte := []
    line_starts := [] }

/-- `extend_snapshot`: in-place extension of a snapshot on the append
fast path. -/
def extend_snapshot (s : FileSnapshot) (app : Content) : FileSnapshot :=
  if app = [] then s else
  let base := s.content.length
  let isA := isAsciiB app
  let acc := if isA then app.length else charCount app
  let c2b :=
    if s.char_to_byte = [] then s.char_to_byte else
      s.char_to_byte.dropLast
        ++ (if isA then (List.range app.length).map (fun i => base + i)
            else (charBoundaries app).map (fun i => base + i))
        ++ [s.content.length + app.length]
  let nls := ((List.range app.length).filter (fun j => app.getD j 0 = 10)).map
    (fun j => if isA then s.char_len + (j + 1) else s.char_len + charCount (app.take (j + 1)))
  { content := s.content ++ app
    byte_len := (s.content ++ app).length
    char_len := s.char_len + acc
    char_to_byte := c2b
    line_starts := s.line_starts ++ nls }

/-- `line_col_from_snapshot`: `partition_point` over the sorted
`line_starts` (modelled as the length of the `≤`-prefix, which is what
`partition_point` returns on a partitioned slice). -/
def line_col_from_snapshot (s : FileSnapshot) (char_idx : Nat) : Nat × Nat :=
  let starts := s.line_starts
  let partPoint := (starts.takeWhile (fun start => start ≤ char_idx)).length
  let line_idx := partPoint - 1
  let line_start := starts.getD line_idx 0
  (line_idx + 1, char_idx - line_start + 1)

/-- `line_col_fast` (rapid single-edit path): `binary_search` on the
sorted `line_starts`; `Ok idx` when the offset is itself a line start,
otherwise `Err` of the insertion point. -/
def line_col_fast (s : FileSnapshot) (char_offset : Nat) : Nat × Nat :=
  if s.line_starts = [] then (1, char_offset + 1)
  else if s.line_starts.contains char_offset then
    (s.line_starts.indexOf char_offset + 2, 1)
  else
    let idx := (s.line_starts.takeWhile (fun start => start < char_offset)).length
    let col := if idx = 0 then char_offset + 1
      else char_offset - s.line_starts.getD (idx - 1) 0
    (idx + 1, col)

/-- `Position` from `src/crdt/operations.rs` (field order of
`Position::new` is line, column, offset, actor, lamport). -/
structure Position where
  lamport_timestamp : Nat
  actor_id : String
  offset : Nat
  line : Nat
  column : Nat
deriving DecidableEq

/-- `Position::new`. -/
def Position.mk' (line column offset : Nat) (actor : String) (lamport : Nat) : Position :=
  { lamport_timestamp := lamport, actor_id := actor, offset := offset
    line := line, column := column }

/-- `OperationType` from `src/crdt/operations.rs`. -/
inductive OperationType where
  | insert (position : Position) (content : Content) (length : Nat)
  | delete (position : Position) (length : Nat)
  | replace (position : Position) (old_content : Content) (new_content : Content)
  | fileCreate (content : Content)
  | fileDelete
  | fileRename (old_path : String) (new_path : String)
deriving DecidableEq

/-- `Operation` from `src/crdt/operations.rs`.  The random 128-bit
`Uuid` is modelled by a `Nat` drawn from a fresh-id supply; the
informational wall-clock `timestamp` is omitted. -/
structure Operation where
  id : Nat
  actor_id : String
  file_path : String
  op_type : OperationType
  parent_ops : List Nat
deriving DecidableEq

/-- `Operation::with_parents`. -/
def Operation.with_parents (op : Operation) (parents : List Nat) : Operation :=
  { op with parent_ops := parents }

/-- The position carried by an Insert/Delete/Replace, if any. -/
def OperationType.position? : OperationType → Option Position
  | .insert p _ _ => some p
  | .delete p _ => some p
  | .replace p _ _ => some p
  | _ => none

def OperationType.isReplace : OperationType → Bool
  | .replace _ _ _ => true
  | _ => false

def OperationType.isEdit : OperationType → Bool
  | .insert _ _ _ => true
  | .delete _ _ => true
  | .replace _ _ _ => true
  | _ => false

-- Association-list models of the `DashMap` singletons.

/-- `DashMap::get` (first matching key). -/
def mapLookup {K V : Type} [DecidableEq K] (k : K) : List (K × V) → Option V
  | [] => none
  | (k', v) :: rest => if k' = k then some v else mapLookup k rest

/-- `DashMap::insert`: replace the value in place when the key is
present, otherwise add the entry. -/
def mapInsert {K V : Type} [DecidableEq K] (k : K) (v : V) : List (K × V) → List (K × V)
  | [] => [(k, v)]
  | (k', v') :: rest => if k' = k then (k, v) :: rest else (k', v') :: mapInsert k v rest

/-- `DashMap::remove`: drop the entries with the key. -/
def mapRemove {K V : Type} [DecidableEq K] (k : K) (m : List (K × V)) : List (K × V) :=
  m.filter (fun e => !(e.1 = k))

/-- The process-wide mutable state of the detector: the snapshot store
`PREV_STATE`, the `LAST_OPERATION` index (keyed by path string), the
`TEMP_CONTENT_CACHE` (the stored `Instant` is never read and is
omitted), `LAST_RENAME_SOURCE`, the rapid-mode `FILE_HASH_CACHE`,
`RAPID_SEQUENCE`, the Lamport clock and the fresh-id supply. -/
structure DetectorState where
  prevState : List (PathT × FileSnapshot)
  lastOperation : List (String × Nat)
  tempCache : List (PathT × Content)
  renameSource : Option PathT
  hashCache : List (PathT × (Nat × Nat × Nat))
  rapidSeq : Nat
  clock : Nat
  nextId : Nat
deriving DecidableEq

def initialState : DetectorState :=
  { prevState := [], lastOperation := [], tempCache := [], renameSource := none
    hashCache := [], rapidSeq := 0, clock := 0, nextId := 0 }

/-- Modelled from the spec: the process-wide `LamportClock`
(`GLOBAL_CLOCK.tick()`), whose source file `src/sync/protocol.rs` is not
under `src/`; per the spec, `tick()` returns the counter and increments
it. -/
def tickClock (st : DetectorState) : Nat × DetectorState :=
  (st.clock, { st with clock := st.clock + 1 })

/-- `Operation::new`: fresh id, empty parents. -/
def operationNew (file_path : String) (t : OperationType) (actor : String)
    (st : DetectorState) : Operation × DetectorState :=
  ({ id := st.nextId, actor_id := actor, file_path := file_path, op_type := t
     parent_ops := [] },
   { st with nextId := st.nextId + 1 })

/-- `register_operation`: attach the per-file parent link and update
`LAST_OPERATION`. -/
def register_operation (op : Operation) (st : DetectorState) :
    Operation × DetectorState :=
  let op' := match mapLookup op.file_path st.lastOperation with
    | some prev => op.with_parents [prev]
    | none => op
  (op', { st with lastOperation := mapInsert op.file_path op'.id st.lastOperation })

-- Limits (`src/watcher/detector.rs`).
def PREV_CONTENT_LIMIT : Nat := 2048
def MAX_TRACKED_FILE_BYTES : Nat := 1000000
def TEMP_CACHE_LIMIT : Nat := 256

/-- The eviction loops `enforce_prev_state_limit` /
`enforce_temp_cache_limit`: remove the iteration-first entry while the
map is over the limit. -/
def enforceLimit {A : Type} (lim : Nat) : List A → List A
  | [] => []
  | x :: rest => if rest.length + 1 > lim then enforceLimit lim rest else x :: rest

/-- `update_prev_state`: point insert/remove, with batch eviction once
the store exceeds `PREV_CONTENT_LIMIT + 100`. -/
def update_prev_state (p : PathT) (snap : Option FileSnapshot)
    (st : DetectorState) : DetectorState :=
  let ps := match snap with
    | some s => mapInsert p s st.prevState
    | none => mapRemove p st.prevState
  let ps := if ps.length > PREV_CONTENT_LIMIT + 100 then enforceLimit PREV_CONTENT_LIMIT ps else ps
  { st with prevState := ps }

/-- `clear_prev_state` (the handle-pool removal has no modelled
effect). -/
def clear_prev_state (p : PathT) (st : DetectorState) : DetectorState :=
  update_prev_state p none st

/-- `move_prev_state_entry`. -/
def move_prev_state_entry (old new : PathT) (st : DetectorState) : DetectorState :=
  match mapLookup old st.prevState with
  | some snapshot =>
    { st with prevState :=
        enforceLimit PREV_CONTENT_LIMIT (mapInsert new snapshot (mapRemove old st.prevState)) }
  | none => st

/-- `move_last_operation_entry`. -/
def move_last_operation_entry (old new : PathT) (st : DetectorState) : DetectorState :=
  match mapLookup (path_key old) st.lastOperation with
  | some op_id =>
    { st with lastOperation :=
        mapInsert (path_key new) op_id (mapRemove (path_key old) st.lastOperation) }
  | none => st

/-- `clear_last_operation_entry`. -/
def clear_last_operation_entry (p : PathT) (st : DetectorState) : DetectorState :=
  { st with lastOperation := mapRemove (path_key p) st.lastOperation }

/-- `cache_temp_content`: read the file and stash it under the temp
path, then trim the cache. -/
def cache_temp_content (fs : PathT → Option Content) (p : PathT)
    (st : DetectorState) : DetectorState :=
  if !(is_temp_path p) then st else
  match fs p with
  | some content =>
    { st with tempCache := enforceLimit TEMP_CACHE_LIMIT (mapInsert p content st.tempCache) }
  | none => st

/-- `move_cached_content`. -/
def move_cached_content (old new : PathT) (st : DetectorState) : DetectorState :=
  if old = new then st else
  match mapLookup old st.tempCache with
  | some entry =>
    { st with tempCache := mapInsert new entry (mapRemove old st.tempCache) }
  | none => st

/-- `take_cached_content`: remove and return the cached content. -/
def take_cached_content (p : PathT) (st : DetectorState) :
    Option Content × DetectorState :=
  match mapLookup p st.tempCache with
  | some c => (some c, { st with tempCache := mapRemove p st.tempCache })
  | none => (none, st)

/-- `remember_rename_source`. -/
def remember_rename_source (p : Option PathT) (st : DetectorState) : DetectorState :=
  { st with renameSource := p }

/-- `take_rename_source`. -/
def take_rename_source (st : DetectorState) : Option PathT × DetectorState :=
  (st.renameSource, { st with renameSource := none })

/-- `ensure_char_mapping`: build the identity `char_to_byte` mapping
(`(0..=len).collect()`) when the snapshot's is empty (ASCII). -/
def ensure_char_mapping (s : FileSnapshot) : FileSnapshot :=
  if s.char_to_byte = [] then
    { s with char_to_byte := List.range (s.content.length + 1) }
  else s

/-- `compute_change_range_fast`: common byte prefix and suffix, then the
byte boundaries converted to character positions.  The chunked rayon
prefix search of the source computes the same common-prefix length as
the linear scan, which is what is modelled. -/
def compute_change_range_fast (old_bytes new_bytes : Content)
    (old_snapshot new_snapshot : FileSnapshot) :
    Option (Nat × Nat × Nat × Nat) :=
  if old_snapshot.char_len = 0 ∧ new_snapshot.char_len = 0 then none else
  let common_prefix_bytes := commonPrefixLen old_bytes new_bytes
  let remaining_old := old_bytes.length - common_prefix_bytes
  let remaining_new := new_bytes.length - common_prefix_bytes
  let common_suffix_bytes :=
    if remaining_old > 0 ∧ remaining_new > 0 then
      min (commonPrefixLen (old_bytes.drop common_prefix_bytes).reverse
            (new_bytes.drop common_prefix_bytes).reverse)
        (min remaining_old remaining_new)
    else 0
  let old_is_ascii := old_snapshot.char_to_byte = []
  let new_is_ascii := new_snapshot.char_to_byte = []
  let prefix_chars :=
    if old_is_ascii then common_prefix_bytes
    else ((old_snapshot.char_to_byte.findIdx? (fun b => common_prefix_bytes ≤ b)).getD
      old_snapshot.char_len)
  let old_suffix_byte_pos := old_bytes.length - common_suffix_bytes
  let old_suffix_chars :=
    if old_is_ascii then old_suffix_byte_pos
    else ((old_snapshot.char_to_byte.findIdx? (fun b => old_suffix_byte_pos ≤ b)).getD
      old_snapshot.char_len)
  let new_suffix_byte_pos := new_bytes.length - common_suffix_bytes
  let new_suffix_chars :=
    if new_is_ascii then new_suffix_byte_pos
    else ((new_snapshot.char_to_byte.findIdx? (fun b => new_suffix_byte_pos ≤ b)).getD
      new_snapshot.char_len)
  if prefix_chars = old_snapshot.char_len ∧ prefix_chars = new_snapshot.char_len then none
  else some (prefix_chars, old_suffix_chars, prefix_chars, new_suffix_chars)

/-- The bounds-checked `char_to_byte` lookup of `fast_diff_ops`. -/
def c2bAt (s : FileSnapshot) (i : Nat) : Nat :=
  if i < s.char_to_byte.length then s.char_to_byte.getD i 0 else s.content.length

/-- `fast_diff_ops`: single-change diff between two snapshots. -/
def fast_diff_ops (p : PathT) (actor : String)
    (old_snapshot new_snapshot : FileSnapshot) (st : DetectorState) :
    List Operation × DetectorState :=
  if old_snapshot.byte_len = new_snapshot.byte_len ∧
      old_snapshot.content = new_snapshot.content then ([], st)
  else
  let old_snap := ensure_char_mapping old_snapshot
  let new_snap := ensure_char_mapping new_snapshot
  match compute_change_range_fast old_snap.content new_snap.content old_snap new_snap with
  | none => ([], st)
  | some (old_start, old_end, new_start, new_end) =>
    let old_start_byte := c2bAt old_snap old_start
    let old_end_byte := c2bAt old_snap old_end
    let new_start_byte := c2bAt new_snap new_start
    let new_end_byte := c2bAt new_snap new_end
    if old_start_byte = old_end_byte ∧ new_start_byte = new_end_byte then ([], st)
    else
    let old_segment := sliceB old_snap.content old_start_byte old_end_byte
    let new_segment := sliceB new_snap.content new_start_byte new_end_byte
    let lc := line_col_from_snapshot old_snap old_start
    let (lamport, st) := tickClock st
    let base_position := Position.mk' lc.1 lc.2 old_start actor lamport
    if old_segment = [] then
      if new_segment = [] then ([], st)
      else
        let (op, st) := operationNew (path_to_string p)
          (.insert base_position new_segment (new_end - new_start)) actor st
        let (op, st) := register_operation op st
        ([op], st)
    else if new_segment = [] then
      let (op, st) := operationNew (path_to_string p)
        (.delete base_position (old_end - old_start)) actor st
      let (op, st) := register_operation op st
      ([op], st)
    else
      let (op, st) := operationNew (path_to_string p)
        (.replace base_position old_segment new_segment) actor st
      let (op, st) := register_operation op st
      ([op], st)

/-- `detect_operations_with_content` (the quality/full path; `override`
is the cached atomic-save content when present). -/
def detect_operations_with_content (fs : PathT → Option Content) (p : PathT)
    (actor : String) (override : Option Content) (st : DetectorState) :
    List Operation × DetectorState :=
  let (cached, st) := match override with
    | some c => (some c, st)
    | none => take_cached_content p st
  match mapLookup p st.prevState with
  | none =>
    let content? := match cached with
      | some text => some text
      | none => fs p
    match content? with
    | none => ([], st)
    | some new_content =>
      if new_content.length > MAX_TRACKED_FILE_BYTES then ([], st)
      else
      let snapshot := build_snapshot_fast new_content
      let st := update_prev_state p (some snapshot) st
      let (op, st) := operationNew (path_to_string p) (.fileCreate new_content) actor st
      let (op, st) := register_operation op st
      ([op], st)
  | some prev =>
    let content? := match cached with
      | some text => some text
      | none => fs p
    match content? with
    | none => ([], st)
    | some new_content =>
      if new_content.length = prev.content.length ∧ new_content = prev.content then
        ([], st)
      else
      let fullDiff : DetectorState → List Operation × DetectorState := fun st =>
        let new_snapshot := build_snapshot_fast new_content
        if new_snapshot.byte_len > MAX_TRACKED_FILE_BYTES then
          ([], update_prev_state p none st)
        else
          let (ops, st) := fast_diff_ops p actor prev new_snapshot st
          let st := update_prev_state p (some new_snapshot) st
          (ops, st)
      if new_content.length > prev.content.length ∧ prev.content.isPrefixOf new_content then
        let appended := new_content.drop prev.content.length
        if appended = [] then fullDiff st
        else
          let char_offset := prev.char_len
          let lc := line_col_from_snapshot prev char_offset
          let (lamport, st) := tickClock st
          let appended_len := charCount appended
          let (op, st) := operationNew (path_to_string p)
            (.insert (Position.mk' lc.1 lc.2 char_offset actor lamport) appended appended_len)
            actor st
          let (op, st) := register_operation op st
          let st := update_prev_state p (some (extend_snapshot prev appended)) st
          ([op], st)
      else fullDiff st

/-- `handle_append_fast` (rapid append path): note the ad-hoc line/column
computed from the last cached line start. -/
def handle_append_fast (p : PathT) (prev : FileSnapshot) (appended : Content)
    (actor : String) (st : DetectorState) : List Operation × DetectorState :=
  let char_offset := prev.char_len
  let lc :=
    if prev.line_starts = [] then (1, char_offset + 1)
    else (prev.line_starts.length + 1, char_offset - ((prev.line_starts.getLast?).getD 0))
  let (lamport, st) := tickClock st
  let appended_len := charCount appended
  let (op, st) := operationNew (path_to_string p)
    (.insert (Position.mk' lc.1 lc.2 char_offset actor lamport) appended appended_len)
    actor st
  let (op, st) := register_operation op st
  let st := update_prev_state p (some (extend_snapshot prev appended)) st
  ([op], st)

/-- `detect_single_edit_fast` (rapid path for `|Δlen| ≤ 10`): pure
insert or delete at the common-prefix boundary. -/
def detect_single_edit_fast (p : PathT) (prev : FileSnapshot)
    (new_content : Content) (actor : String) (st : DetectorState) :
    List Operation × DetectorState :=
  let prefix_len := commonPrefixLen prev.content new_content
  let (op, st) :=
    if new_content.length > prev.content.length then
      let inserted := sliceB new_content prefix_len
        (prefix_len + (new_content.length - prev.content.length))
      let char_offset := charCount (prev.content.take prefix_len)
      let lc := line_col_fast prev char_offset
      let (lamport, st) := tickClock st
      let (op, st) := operationNew (path_to_string p)
        (.insert (Position.mk' lc.1 lc.2 char_offset actor lamport) inserted
          (charCount inserted)) actor st
      register_operation op st
    else
      let deleted_len := prev.content.length - new_content.length
      let char_offset := charCount (prev.content.take prefix_len)
      let lc := line_col_fast prev char_offset
      let (lamport, st) := tickClock st
      let (op, st) := operationNew (path_to_string p)
        (.delete (Position.mk' lc.1 lc.2 char_offset actor lamport)
          (charCount (sliceB prev.content prefix_len (prefix_len + deleted_len)))) actor st
      register_operation op st
  let st := update_prev_state p (some (build_snapshot_minimal new_content)) st
  ([op], st)

/-- `detect_operations_ultra_fast` (quality detection with rapid mode
enabled). -/
def detect_operations_ultra_fast (fs : PathT → Option Content) (p : PathT)
    (actor : String) (st : DetectorState) : List Operation × DetectorState :=
  match mapLookup p st.prevState with
  | none =>
    match fs p with
    | none => ([], st)
    | some new_content =>
      if new_content.length > MAX_TRACKED_FILE_BYTES then ([], st)
      else
      let snapshot := build_snapshot_minimal new_content
      let st := update_prev_state p (some snapshot) st
      let (op, st) := operationNew (path_to_string p) (.fileCreate new_content) actor st
      let (op, st) := register_operation op st
      ([op], st)
  | some prev =>
    match fs p with
    | none => ([], st)
    | some new_content =>
      if new_content.length = prev.content.length ∧ new_content = prev.content then
        ([], st)
      else if new_content.length > prev.content.length ∧
          prev.content.isPrefixOf new_content ∧
          new_content.drop prev.content.length ≠ [] then
        handle_append_fast p prev (new_content.drop prev.content.length) actor st
      else if ((new_content.length : Int) - (prev.content.length : Int)).natAbs ≤ 10 then
        detect_single_edit_fast p prev new_content actor st
      else
        detect_operations_with_content fs p actor (some new_content) st

def WRAP64 : Nat := 18446744073709551616

/-- `u64` wrapping subtraction `a - b`. -/
def sub64 (a b : Nat) : Nat := (a % WRAP64 + (WRAP64 - b % WRAP64)) % WRAP64

/-- `detect_rapid_change`: zero-syscall sequence-counter deduplication.
Returns `none` when the event is suppressed; the returned `Nat` models
the (unused) elapsed-time value. -/
def detect_rapid_change (rapidDisabled : Bool) (p : PathT) (st : DetectorState) :
    Option Nat × DetectorState :=
  if rapidDisabled then (some 0, st) else
  let sequence := st.rapidSeq
  let st := { st with rapidSeq := st.rapidSeq + 1 }
  match mapLookup p st.hashCache with
  | some cached =>
    if sub64 sequence cached.2.1 < 100 then (none, st)
    else (some 0, { st with hashCache := mapInsert p (0, sequence, 0) st.hashCache })
  | none => (some 0, { st with hashCache := mapInsert p (0, sequence, 0) st.hashCache })

/-- `detect_quality_operations`: quality-only mode when rapid is
disabled, otherwise the ultra-fast detector. -/
def detect_quality_operations (rapidDisabled : Bool) (fs : PathT → Option Content)
    (p : PathT) (actor : String) (st : DetectorState) :
    List Operation × DetectorState :=
  if rapidDisabled then detect_operations_with_content fs p actor none st
  else detect_operations_ultra_fast fs p actor st

/-- The environment of external collaborators: rapid-mode toggle
(`DX_DISABLE_RAPID_MODE`), the filesystem, the external log's `append`,
and the per-process actor id. -/
structure Env where
  rapidDisabled : Bool
  fs : PathT → Option Content
  append : Operation → Except String Bool
  actor : String

/-- Outcome of one processing step: the new state, the operations the
detector handed to `emit_operations` (in order), and the error of a
failed `oplog.append` if one occurred (`?`-propagation). -/
structure StepOut where
  st : DetectorState
  ops : List Operation
  err : Option String

/-- `emit_operations`' append loop: `oplog.append(op.clone())?` —
returns the error of the first failing append, if any. -/
def emitOps (append : Operation → Except String Bool) : List Operation → Option String
  | [] => none
  | op :: rest =>
    match append op with
    | .error e => some e
    | .ok _ => emitOps append rest

/-- `process_path`: temp-path capture, trackability gate, rapid
deduplication, quality detection and emission. -/
def processPath (env : Env) (p : PathT) (st : DetectorState) : StepOut :=
  if is_temp_path p then
    { st := cache_temp_content env.fs p st, ops := [], err := none }
  else if !(should_track p) then { st := st, ops := [], err := none }
  else
    let (rapid, st) := detect_rapid_change env.rapidDisabled p st
    match rapid with
    | none => { st := st, ops := [], err := none }
    | some _ =>
      let (ops, st) := detect_quality_operations env.rapidDisabled env.fs p env.actor st
      if ops = [] then { st := st, ops := [], err := none }
      else { st := st, ops := ops, err := emitOps env.append ops }

/-- One path of an `EventKind::Remove` event: temp paths are skipped
entirely; otherwise drop the cached temp content and, for trackable
paths, clear the snapshot and last-operation entries and emit a
`FileDelete`. -/
def processRemovePath (env : Env) (p : PathT) (st : DetectorState) : StepOut :=
  if is_temp_path p then { st := st, ops := [], err := none }
  else
    let st := { st with tempCache := mapRemove p st.tempCache }
    if should_track p then
      let st := clear_prev_state p st
      let st := clear_last_operation_entry p st
      let (op, st) := operationNew (path_to_string p) .fileDelete env.actor st
      let (op, st) := register_operation op st
      { st := st, ops := [op], err := emitOps env.append [op] }
    else { st := st, ops := [], err := none }

/-- `handle_rename_transition`, the four-way rename classification. -/
def handle_rename_transition (env : Env) (old_path new_path : PathT)
    (st : DetectorState) : StepOut :=
  let st := remember_rename_source none st
  let st := move_cached_content old_path new_path st
  let old_is_temp := is_temp_path old_path
  let new_is_temp := is_temp_path new_path
  if old_is_temp ∧ ¬new_is_temp then
    if !(should_track new_path) then
      { st := { st with tempCache := mapRemove new_path st.tempCache }, ops := [], err := none }
    else
      match take_cached_content new_path st with
      | (some content, st) =>
        let (ops, st) := detect_operations_with_content env.fs new_path env.actor
          (some content) st
        if ops = [] then { st := st, ops := [], err := none }
        else { st := st, ops := ops, err := emitOps env.append ops }
      | (none, st) => processPath env new_path st
  else
    let old_trackable := should_track old_path
    let new_trackable := should_track new_path
    if old_trackable ∧ new_trackable then
      let st := move_prev_state_entry old_path new_path st
      let st := move_last_operation_entry old_path new_path st
      let (op, st) := operationNew (path_to_string new_path)
        (.fileRename (path_to_string old_path) (path_to_string new_path)) env.actor st
      let (op, st) := register_operation op st
      { st := st, ops := [op], err := emitOps env.append [op] }
    else if ¬old_trackable ∧ new_trackable then
      processPath env new_path st
    else if old_trackable ∧ ¬new_trackable then
      let st := { st with tempCache := mapRemove old_path st.tempCache }
      let st := clear_prev_state old_path st
      let st := clear_last_operation_entry old_path st
      let (op, st) := operationNew (path_to_string old_path) .fileDelete env.actor st
      let (op, st) := register_operation op st
      { st := st, ops := [op], err := emitOps env.append [op] }
    else { st := st, ops := [], err := none }

/-- A debounced filesystem notification, by `EventKind`. -/
inductive FsEvent where
  | modify (paths : List PathT)
  | create (paths : List PathT)
  | remove (paths : List PathT)
  | renameFrom (paths : List PathT)
  | renameTo (paths : List PathT)
  | renameBoth (paths : List PathT)

/-- Iterate a per-path step over an event's paths, aborting on the first
propagated error (the `?` inside the `for` loop). -/
def foldPaths (f : PathT → DetectorState → StepOut) :
    List PathT → DetectorState → StepOut
  | [], st => { st := st, ops := [], err := none }
  | p :: rest, st =>
    let r := f p st
    match r.err with
    | some e => { st := r.st, ops := r.ops, err := some e }
    | none =>
      let r2 := foldPaths f rest r.st
      { st := r2.st, ops := r.ops ++ r2.ops, err := r2.err }

/-- Dispatch of one debounced event in `process_events_loop`.
(`EventKind::Create` additionally warms the handle pool, which has no
modelled effect.) -/
def processEvent (env : Env) : FsEvent → DetectorState → StepOut
  | .modify paths, st => foldPaths (processPath env) paths st
  | .create paths, st => foldPaths (processPath env) paths st
  | .remove paths, st => foldPaths (processRemovePath env) paths st
  | .renameFrom paths, st =>
    match paths.head? with
    | some old_path =>
      let st := if is_temp_path old_path then cache_temp_content env.fs old_path st else st
      { st := remember_rename_source (some old_path) st, ops := [], err := none }
    | none => { st := st, ops := [], err := none }
  | .renameTo paths, st =>
    let new_path := paths.getLast?
    let (old0, st) := take_rename_source st
    let old_path := match old0 with
      | some o => some o
      | none => if paths.length ≥ 2 then paths.head? else none
    match old_path, new_path with
    | some old, some new => handle_rename_transition env old new st
    | _, _ => { st := st, ops := [], err := none }
  | .renameBoth paths, st =>
    match paths with
    | old :: new :: _ => handle_rename_transition env old new st
    | _ => { st := st, ops := [], err := none }

/-- `process_events_loop`: drain the events in order; an error
propagated from an event handler (`?`) terminates the loop at once,
leaving the remaining events unprocessed. -/
def runEvents (env : Env) : List FsEvent → DetectorState → StepOut
  | [], st => { st := st, ops := [], err := none }
  | e :: rest, st =>
    let r := processEvent env e st
    match r.err with
    | some m => { st := r.st, ops := r.ops, err := some m }
    | none =>
      let r2 := runEvents env rest r.st
      { st := r2.st, ops := r.ops ++ r2.ops, err := r2.err }

/-- Follows the spec's words (testable property 3, diff correctness):
the result of applying an `Insert`/`Delete`/`Replace` payload at its
character offset to the prior snapshot content; `none` for the
whole-file operations. -/
def applyEditSpec (old : Content) : OperationType → Option Content
  | .insert pos content _ =>
    let i := charToByteIdx old pos.offset
    some (old.take i ++ content ++ old.drop i)
  | .delete pos len =>
    let i := charToByteIdx old pos.offset
    let j := charToByteIdx old (pos.offset + len)
    some (old.take i ++ old.drop j)
  | .replace pos old_content new_content =>
    let i := charToByteIdx old pos.offset
    let j := charToByteIdx old (pos.offset + charCount old_content)
    some (old.take i ++ new_content ++ old.drop j)
  | _ => none

/-- Follows the spec's words (§4.4): the line is `i + 1` and the column
is `offset − line_starts[i] + 1` for the largest index `i` with
`line_starts[i] ≤ offset`; `(1, offset + 1)` when `line_starts` is
empty. -/
def specLineCol (starts : List Nat) (o : Nat) : Nat × Nat :=
  match ((List.range starts.length).filter (fun i => starts.getD i 0 ≤ o)).getLast? with
  | some i => (i + 1, o - starts.getD i 0 + 1)
  | none => (1, o + 1)

-- Concrete fixtures used by the claim theorems below.

def pathA : PathT := ["a.txt"]
def pathB : PathT := ["b.txt"]
def pathTmp : PathT := ["a.txt.tmp"]

/-- Spec scenario S3: prior snapshot `foo bar baz`. -/
def s3Old : Content := strBytes "foo bar baz"

/-- Spec scenario S3: new content `foo QUX baz`. -/
def s3New : Content := strBytes "foo QUX baz"

def s3Snap : FileSnapshot := build_snapshot_fast s3Old

def s3St : DetectorState := { initialState with prevState := [(pathA, s3Snap)] }

def s3Fs : PathT → Option Content := fun p => if p = pathA then some s3New else none

/-- The operations the default (rapid-mode) detector emits for S3. -/
def s3OpsRapid : List Operation := (detect_operations_ultra_fast s3Fs pathA "actor" s3St).1

/-- C1 (counterexample): with the rapid detector enabled (the default),
the S3 write `foo bar baz → foo QUX baz` takes the `|Δlen| ≤ 10`
single-edit path and emits one zero-length `Delete` at offset 4 — not a
`Replace` — and applying its payload to the prior snapshot does not
yield the new content. -/
theorem C1_counterexample :
    s3OpsRapid.length = 1 ∧
    (∀ op ∈ s3OpsRapid, op.op_type.isReplace = false ∧
      op.op_type.isEdit = true ∧
      applyEditSpec s3Old op.op_type ≠ some s3New) := by decide

def c2Env : Env where
  rapidDisabled := false
  fs := fun p => if p = pathA then some (strBytes "hi") else none
  append := fun _ => .ok true
  actor := "actor"

/-- First observation of `a.txt` (a `FileCreate`), then a `Remove` event
(a `FileDelete`). -/
def c2Run : StepOut := runEvents c2Env [.modify [pathA], .remove [pathA]] initialState

/-- C2 (counterexample): after a `FileCreate` followed by a `FileDelete`
for the same path, the `FileDelete` (the later of two operations with no
`FileDelete` strictly between them) has empty `parent_ops` instead of
the singleton of the earlier operation's id, and the `LastOperation`
entry is not removed on its emission — it holds the `FileDelete`'s own
id. -/
theorem C2_counterexample :
    c2Run.ops.length = 2 ∧
    ((c2Run.ops.get? 0).map (fun op => op.file_path)
      = (c2Run.ops.get? 1).map (fun op => op.file_path)) ∧
    ((c2Run.ops.get? 1).map (fun op => op.op_type) = some .fileDelete) ∧
    ((c2Run.ops.get? 0).map (fun op => op.id) = some 0) ∧
    ((c2Run.ops.get? 1).map (fun op => op.parent_ops) = some []) ∧
    mapLookup (path_key pathA) c2Run.st.lastOperation ≠ none := by decide

/-- A two-byte non-ASCII prior content (`é`). -/
def eAcute : Content := [195, 169]

/-- A two-byte non-ASCII new content (`è`). -/
def eGrave : Content := [195, 168]

def c3PathT : PathT := ["n.txt.tmp"]
def c3PathF : PathT := ["n.txt"]

def c3Env : Env where
  rapidDisabled := false
  fs := fun p => if p = c3PathT then some eGrave else none
  append := fun _ => .ok true
  actor := "actor"

def c3St : DetectorState := { initialState with prevState := [(c3PathF, build_snapshot_fast eAcute)] }

/-- An editor atomic save of `n.txt` (write temp, rename temp → file,
remove the backup) changing the tracked content `é` to `è`. -/
def c3Run : StepOut :=
  runEvents c3Env [.modify [c3PathT], .renameFrom [c3PathT], .renameTo [c3PathF], .remove [c3PathT]] c3St

/-- C3 (counterexample): an atomic save over a previously tracked file
whose snapshot exists, replacing the two-byte character `é` by `è`,
emits no operation at all — not a single `Insert`/`Delete`/`Replace` —
although the save is applied (the snapshot is updated to the new,
different content). -/
theorem C3_counterexample :
    c3Run.ops = [] ∧
    ((mapLookup c3PathF c3Run.st.prevState).map (fun s => s.content) = some eGrave) ∧
    eAcute ≠ eGrave := by decide

def c6Env : Env where
  rapidDisabled := false
  fs := fun p => if p = pathA then some (strBytes "hi")
    else if p = pathB then some (strBytes "yo") else none
  append := fun _ => .error "db"
  actor := "actor"

/-- Two events whose processing fails at the external log's `append`. -/
def c6Run : StepOut := runEvents c6Env [.modify [pathA], .modify [pathB]] initialState

/-- C6 (counterexample): when `append` fails for the first event's
operation, the event-processing loop terminates with the error; the
second event is never processed (`b.txt` gets no snapshot), although
processing it alone would have created one. -/
theorem C6_counterexample :
    c6Run.err = some "db" ∧
    mapLookup pathB c6Run.st.prevState = none ∧
    mapLookup pathB (runEvents c6Env [.modify [pathB]] initialState).st.prevState ≠ none := by
  decide

def c8Snap : FileSnapshot := build_snapshot_fast (strBytes "a\nbd")

/-- A 1-character insertion into `a\nbd` (snapshot with
`line_starts = [0, 2]`), routed through the rapid single-edit path. -/
def c8Ops : List Operation :=
  (detect_operations_ultra_fast (fun p => if p = pathB then some (strBytes "a\nbcd") else none)
    pathB "actor" { initialState with prevState := [(pathB, c8Snap)] }).1

/-- C8 (counterexample): the rapid single-edit path (`line_col_fast`)
emits the insertion at character offset 3 with line/column `(3, 1)`,
while the claimed formula (largest `line_starts` index `i` with
`line_starts[i] ≤ 3` is `i = 1`, line `i+1 = 2`, column
`3 − line_starts[1] + 1 = 2`) gives `(2, 2)`. -/
theorem C8_counterexample :
    c8Ops.length = 1 ∧
    ((c8Ops.get? 0).bind (fun op => op.op_type.position?.map
      (fun pos => (pos.offset, pos.line, pos.column))) = some (3, 3, 1)) ∧
    c8Snap.line_starts ≠ [] ∧
    specLineCol c8Snap.line_starts 3 = (2, 2) ∧ (2, 2) ≠ ((3 : Nat), (1 : Nat)) := by decide

-- General lemmas about the byte-content model.

theorem isContByte_eq_false_of_lt {b : Nat} (h : b < 128) : isContByte b = false := by
  simp only [isContByte, Bool.and_eq_false_iff, decide_eq_false_iff_not]
  omega

theorem ascii_mem {bs : Content} (h : isAsciiB bs = true) {b : Nat} (hb : b ∈ bs) :
    b < 128 := by
  simp only [isAsciiB, List.all_eq_true, decide_eq_true_eq] at h
  exact h b hb

theorem isAsciiB_of_subset {bs bs' : Content} (h : isAsciiB bs = true)
    (hsub : bs' ⊆ bs) : isAsciiB bs' = true := by
  simp only [isAsciiB, List.all_eq_true, decide_eq_true_eq] at h ⊢
  exact fun b hb => h b (hsub hb)

theorem charCount_ascii {bs : Content} (h : isAsciiB bs = true) :
    charCount bs = bs.length := by
  unfold charCount
  rw [List.filter_eq_self.mpr fun b hb => by
    simp [isContByte_eq_false_of_lt (ascii_mem h hb)]]

theorem charCount_append (a b : Content) :
    charCount (a ++ b) = charCount a + charCount b := by
  simp [charCount, List.filter_append]

theorem charBoundaries_ascii {bs : Content} (h : isAsciiB bs = true) :
    charBoundaries bs = List.range bs.length := by
  unfold charBoundaries
  apply List.filter_eq_self.mpr
  intro i hi
  rw [List.mem_range] at hi
  have hmem : bs.getD i 0 ∈ bs := by
    rw [List.getD_eq_getElem _ _ hi]
    exact List.getElem_mem _
  have hmem2 : bs[i]?.getD 0 ∈ bs := by rwa [← List.getD_eq_getElem?_getD]
  simp [isContByte_eq_false_of_lt (ascii_mem h hmem2)]

theorem charToByteIdx_ascii {bs : Content} (h : isAsciiB bs = true) (c : Nat) :
    charToByteIdx bs c = min c bs.length := by
  unfold charToByteIdx
  rw [charBoundaries_ascii h, List.getD_eq_getElem?_getD]
  rcases lt_or_ge c bs.length with hc | hc
  · rw [List.getElem?_range hc]
    simp
    omega
  · rw [List.getElem?_eq_none (by simpa using hc)]
    simp
    omega

theorem commonPrefixLen_le_left : ∀ a b : Content, commonPrefixLen a b ≤ a.length
  | [], _ => by simp [commonPrefixLen]
  | _ :: _, [] => by simp [commonPrefixLen]
  | a :: as_, b :: bs => by
    unfold commonPrefixLen
    split
    · have := commonPrefixLen_le_left as_ bs
      simpa using this
    · simp

theorem commonPrefixLen_le_right : ∀ a b : Content, commonPrefixLen a b ≤ b.length
  | [], _ => by simp [commonPrefixLen]
  | _ :: _, [] => by simp [commonPrefixLen]
  | a :: as_, b :: bs => by
    unfold commonPrefixLen
    split
    · have := commonPrefixLen_le_right as_ bs
      simpa using this
    · simp

theorem commonPrefixLen_take : ∀ a b : Content,
    a.take (commonPrefixLen a b) = b.take (commonPrefixLen a b)
  | [], b => by simp [commonPrefixLen]
  | _ :: _, [] => by simp [commonPrefixLen]
  | a :: as_, b :: bs => by
    unfold commonPrefixLen
    split
    · next hab =>
      subst hab
      simp [commonPrefixLen_take as_ bs]
    · simp

theorem take_eq_of_le_commonPrefixLen {a b : Content} {k : Nat}
    (h : k ≤ commonPrefixLen a b) : a.take k = b.take k := by
  have h1 : a.take k = (a.take (commonPrefixLen a b)).take k := by
    rw [List.take_take, min_eq_left h]
  rw [h1, commonPrefixLen_take, List.take_take, min_eq_left h]

theorem eq_of_commonPrefixLen_full {a b : Content}
    (h1 : commonPrefixLen a b = a.length) (h2 : commonPrefixLen a b = b.length) :
    a = b := by
  have ht := commonPrefixLen_take a b
  have hlen : a.length = b.length := by rw [← h1, h2]
  rw [h1, List.take_length, hlen, List.take_length] at ht
  exact ht

theorem commonPrefixLen_self : ∀ a : Content, commonPrefixLen a a = a.length
  | [] => by simp [commonPrefixLen]
  | a :: as_ => by simp [commonPrefixLen, commonPrefixLen_self as_]

/-- The common-suffix computation of `compute_change_range_fast`: when
the last `s` bytes (computed through the reversed remainders) agree, the
final `s`-byte suffixes of the full contents agree. -/
theorem suffix_drop_eq {a b : Content} {s : Nat}
    (hk : s ≤ commonPrefixLen a.reverse b.reverse) :
    a.drop (a.length - s) = b.drop (b.length - s) := by
  have htake : a.reverse.take s = b.reverse.take s := take_eq_of_le_commonPrefixLen hk
  rw [List.take_reverse, List.take_reverse] at htake
  exact List.reverse_injective htake

/-- Decomposition used by the diff-correctness proofs:
`take p l ++ drop p (take q l) ++ drop q l = l` when `p ≤ q`. -/
theorem take_drop_decomp (l : Content) {p q : Nat} (h : p ≤ q) :
    l.take p ++ (l.take q).drop p ++ l.drop q = l := by
  have h1 : l.take p = (l.take q).take p := by
    rw [List.take_take, min_eq_left h]
  rw [h1, List.take_append_drop, List.take_append_drop]

theorem findIdx?_range_ge (n x : Nat) :
    (List.range n).findIdx? (fun b => decide (x ≤ b)) = if x < n then some x else none := by
  induction n with
  | zero => simp [List.findIdx?_nil]
  | succ m ih =>
    rw [List.range_succ, List.findIdx?_append, ih]
    by_cases hxm : x < m
    · simp [hxm, (show x < m + 1 by omega)]
    · by_cases hxm1 : x < m + 1
      · have hxeq : x = m := by omega
        simp [hxm, hxm1, List.findIdx?_cons, List.findIdx?_nil, hxeq]
      · simp [hxm, hxm1, List.findIdx?_cons, List.findIdx?_nil, (show ¬ (x ≤ m) by omega)]

-- Association-list map lemmas.

theorem mapLookup_insert_self {K V : Type} [DecidableEq K] (k : K) (v : V) :
    ∀ m : List (K × V), mapLookup k (mapInsert k v m) = some v
  | [] => by simp [mapInsert, mapLookup]
  | (k', v') :: rest => by
    by_cases h : k' = k
    · simp [mapInsert, mapLookup, h]
    · simp [mapInsert, mapLookup, h, mapLookup_insert_self k v rest]

theorem mapLookup_cons {K V : Type} [DecidableEq K] (k k' : K) (v : V)
    (rest : List (K × V)) :
    mapLookup k ((k', v) :: rest) = if k' = k then some v else mapLookup k rest := rfl

theorem mapInsert_cons {K V : Type} [DecidableEq K] (k k' : K) (v v' : V)
    (rest : List (K × V)) :
    mapInsert k v ((k', v') :: rest)
      = if k' = k then (k, v) :: rest else (k', v') :: mapInsert k v rest := rfl

theorem mapLookup_insert_ne {K V : Type} [DecidableEq K] {k k' : K} (v : V)
    (h : k' ≠ k) : ∀ m : List (K × V), mapLookup k' (mapInsert k v m) = mapLookup k' m
  | [] => by
    show mapLookup k' [(k, v)] = none
    rw [mapLookup_cons, if_neg (Ne.symm h)]
    rfl
  | (k'', v'') :: rest => by
    rw [mapInsert_cons]
    by_cases h2 : k'' = k
    · rw [if_pos h2, mapLookup_cons, if_neg (Ne.symm h), mapLookup_cons,
        if_neg (h2 ▸ Ne.symm h)]
    · rw [if_neg h2, mapLookup_cons, mapLookup_cons, mapLookup_insert_ne v h rest]

theorem mapLookup_eq_none_iff {K V : Type} [DecidableEq K] {k : K} :
    ∀ {m : List (K × V)}, mapLookup k m = none ↔ ∀ e ∈ m, ¬(e.1 = k)
  | [] => by simp [mapLookup]
  | (k', v') :: rest => by
    by_cases h : k' = k
    · simp [mapLookup, h]
    · simp [mapLookup, h, @mapLookup_eq_none_iff K V _ k rest]

theorem mapLookup_remove_self {K V : Type} [DecidableEq K] (k : K) (m : List (K × V)) :
    mapLookup k (mapRemove k m) = none := by
  rw [mapLookup_eq_none_iff]
  intro e he
  rw [mapRemove, List.mem_filter] at he
  simpa using he.2

theorem mapRemove_cons {K V : Type} [DecidableEq K] (k k' : K) (v : V)
    (rest : List (K × V)) :
    mapRemove k ((k', v) :: rest)
      = if k' = k then mapRemove k rest else (k', v) :: mapRemove k rest := by
  by_cases h : k' = k
  · simp [mapRemove, List.filter_cons, h]
  · simp [mapRemove, List.filter_cons, h]

theorem mapLookup_remove_ne {K V : Type} [DecidableEq K] {k k' : K}
    (h : k' ≠ k) : ∀ m : List (K × V), mapLookup k' (mapRemove k m) = mapLookup k' m
  | [] => by simp [mapRemove, mapLookup]
  | (k'', v'') :: rest => by
    rw [mapRemove_cons]
    by_cases h2 : k'' = k
    · rw [if_pos h2, mapLookup_remove_ne h rest, mapLookup_cons,
        if_neg (h2 ▸ Ne.symm h)]
    · rw [if_neg h2, mapLookup_cons, mapLookup_cons, mapLookup_remove_ne h rest]

theorem length_mapInsert_le {K V : Type} [DecidableEq K] (k : K) (v : V) :
    ∀ m : List (K × V), (mapInsert k v m).length ≤ m.length + 1
  | [] => by simp [mapInsert]
  | (k', v') :: rest => by
    by_cases h : k' = k
    · simp [mapInsert, h]
    · simp only [mapInsert, h, if_false, List.length_cons]
      have := length_mapInsert_le k v rest
      omega

theorem length_mapInsert_of_mem {K V : Type} [DecidableEq K] {k : K} (v : V) :
    ∀ {m : List (K × V)}, (mapLookup k m).isSome = true →
      (mapInsert k v m).length = m.length
  | [], h => by simp [mapLookup] at h
  | (k', v') :: rest, h => by
    by_cases h2 : k' = k
    · simp [mapInsert, h2]
    · simp only [mapLookup, h2, if_false] at h
      simp only [mapInsert, h2, if_false, List.length_cons]
      rw [length_mapInsert_of_mem v h]

theorem length_mapRemove_le {K V : Type} [DecidableEq K] (k : K) (m : List (K × V)) :
    (mapRemove k m).length ≤ m.length :=
  (List.filter_sublist m).length_le

theorem length_mapRemove_lt {K V : Type} [DecidableEq K] {k : K} {m : List (K × V)}
    (h : (mapLookup k m).isSome = true) : (mapRemove k m).length + 1 ≤ m.length := by
  induction m with
  | nil => simp [mapLookup] at h
  | cons e rest ih =>
    by_cases h2 : e.1 = k
    · have : mapRemove k (e :: rest) = mapRemove k rest := by
        simp [mapRemove, List.filter, h2]
      rw [this]
      have := length_mapRemove_le k rest
      simp only [List.length_cons]
      omega
    · simp only [mapLookup, h2, if_false] at h
      have hih := ih (by
        cases e with
        | mk k' v' => simpa [mapLookup, h2] using h)
      have : mapRemove k (e :: rest) = e :: mapRemove k rest := by
        simp [mapRemove, List.filter, h2]
      rw [this]
      simp only [List.length_cons]
      omega

-- Eviction-loop lemmas.

theorem enforceLimit_length {A : Type} (lim : Nat) :
    ∀ l : List A, (enforceLimit lim l).length ≤ lim
  | [] => by simp [enforceLimit]
  | x :: rest => by
    unfold enforceLimit
    split
    · exact enforceLimit_length lim rest
    · next h =>
      simp only [List.length_cons]
      omega

theorem enforceLimit_of_le {A : Type} {lim : Nat} :
    ∀ {l : List A}, l.length ≤ lim → enforceLimit lim l = l
  | [], _ => by simp [enforceLimit]
  | x :: rest, h => by
    unfold enforceLimit
    rw [if_neg]
    simp only [List.length_cons] at h
    omega

theorem enforceLimit_sublist {A : Type} (lim : Nat) :
    ∀ l : List A, (enforceLimit lim l).Sublist l
  | [] => by simp [enforceLimit]
  | x :: rest => by
    unfold enforceLimit
    split
    · exact (enforceLimit_sublist lim rest).cons x
    · exact List.Sublist.refl _

theorem mapLookup_eq_none_of_sublist {K V : Type} [DecidableEq K] {k : K}
    {m m' : List (K × V)} (hs : m'.Sublist m) (h : mapLookup k m = none) :
    mapLookup k m' = none := by
  rw [mapLookup_eq_none_iff] at h ⊢
  exact fun e he => h e (hs.subset he)

-- `update_prev_state` lemmas.

theorem update_prev_state_length (p : PathT) (s? : Option FileSnapshot)
    (st : DetectorState) :
    (update_prev_state p s? st).prevState.length ≤ PREV_CONTENT_LIMIT + 100 := by
  unfold update_prev_state
  cases s? <;> simp only [] <;> split
  · exact le_trans (enforceLimit_length _ _) (by omega)
  · next h => omega
  · exact le_trans (enforceLimit_length _ _) (by omega)
  · next h => omega

theorem update_prev_state_some_of_mem {p : PathT} {st : DetectorState}
    {prev : FileSnapshot} (hm : mapLookup p st.prevState = some prev)
    (hlen : st.prevState.length ≤ PREV_CONTENT_LIMIT + 100) (s : FileSnapshot) :
    (update_prev_state p (some s) st).prevState = mapInsert p s st.prevState := by
  have hlen2 : (mapInsert p s st.prevState).length = st.prevState.length :=
    length_mapInsert_of_mem s (by rw [hm]; rfl)
  unfold update_prev_state
  simp only []
  rw [if_neg (by omega)]

theorem update_prev_state_none_lookup (p : PathT) (st : DetectorState) :
    mapLookup p (update_prev_state p none st).prevState = none := by
  unfold update_prev_state
  simp only []
  split
  · exact mapLookup_eq_none_of_sublist (enforceLimit_sublist _ _)
      (mapLookup_remove_self p _)
  · exact mapLookup_remove_self p _

theorem update_prev_state_keeps (p : PathT) (s? : Option FileSnapshot)
    (st : DetectorState) :
    (update_prev_state p s? st).lastOperation = st.lastOperation ∧
    (update_prev_state p s? st).tempCache = st.tempCache ∧
    (update_prev_state p s? st).nextId = st.nextId ∧
    (update_prev_state p s? st).clock = st.clock :=
  ⟨rfl, rfl, rfl, rfl⟩

/-- Core append-path lemma for `detect_operations_with_content`: with a
snapshot present and the observed content equal to the snapshot content
followed by a non-empty suffix `S`, the detector emits exactly one
`Insert` carrying `S` at character offset `prev.char_len`, and stores
`extend_snapshot prev S` (no size check is applied on this path). -/
theorem withContent_append (fs : PathT → Option Content) (p : PathT) (actor : String)
    (prev : FileSnapshot) (S : Content) (st : DetectorState)
    (hlk : mapLookup p st.prevState = some prev) (hS : S ≠ [])
    (hlen : st.prevState.length ≤ PREV_CONTENT_LIMIT + 100) :
    ∃ op pos,
      (detect_operations_with_content fs p actor (some (prev.content ++ S)) st).1 = [op] ∧
      op.op_type = .insert pos S (charCount S) ∧
      pos.offset = prev.char_len ∧
      mapLookup p
        (detect_operations_with_content fs p actor (some (prev.content ++ S)) st).2.prevState
        = some (extend_snapshot prev S) := by
  have hlength : (prev.content ++ S).length > prev.content.length := by
    rw [List.length_append]
    cases S with
    | nil => exact absurd rfl hS
    | cons a t => simp
  have hpre : prev.content.isPrefixOf (prev.content ++ S) = true :=
    List.isPrefixOf_iff_prefix.mpr (List.prefix_append _ _)
  have hdrop : (prev.content ++ S).drop prev.content.length = S := List.drop_left _ _
  have hneq : ¬((prev.content ++ S).length = prev.content.length ∧
      prev.content ++ S = prev.content) := fun hc => by
    have := hc.1
    omega
  unfold detect_operations_with_content
  simp only [hlk]
  rw [if_neg hneq, if_pos ⟨hlength, hpre⟩]
  simp only [hdrop]
  rw [if_neg hS]
  simp only [tickClock, operationNew, register_operation]
  cases hl : mapLookup (path_to_string p) st.lastOperation with
  | some prevId =>
    simp only [hl, Operation.with_parents]
    refine ⟨_, _, rfl, rfl, rfl, ?_⟩
    rw [@update_prev_state_some_of_mem p _ prev (by exact hlk) (by exact hlen) _]
    exact mapLookup_insert_self _ _ _
  | none =>
    simp only [hl]
    refine ⟨_, _, rfl, rfl, rfl, ?_⟩
    rw [@update_prev_state_some_of_mem p _ prev (by exact hlk) (by exact hlen) _]
    exact mapLookup_insert_self _ _ _

/-- Core append-path lemma for `detect_operations_ultra_fast`: the rapid
append fast path (`handle_append_fast`) emits the same single `Insert`
and also stores `extend_snapshot prev S`. -/
theorem ultraFast_append (fs : PathT → Option Content) (p : PathT) (actor : String)
    (prev : FileSnapshot) (S : Content) (st : DetectorState)
    (hlk : mapLookup p st.prevState = some prev)
    (hfs : fs p = some (prev.content ++ S)) (hS : S ≠ [])
    (hlen : st.prevState.length ≤ PREV_CONTENT_LIMIT + 100) :
    ∃ op pos,
      (detect_operations_ultra_fast fs p actor st).1 = [op] ∧
      op.op_type = .insert pos S (charCount S) ∧
      pos.offset = prev.char_len ∧
      mapLookup p (detect_operations_ultra_fast fs p actor st).2.prevState
        = some (extend_snapshot prev S) := by
  have hlength : (prev.content ++ S).length > prev.content.length := by
    rw [List.length_append]
    cases S with
    | nil => exact absurd rfl hS
    | cons a t => simp
  have hpre : prev.content.isPrefixOf (prev.content ++ S) = true :=
    List.isPrefixOf_iff_prefix.mpr (List.prefix_append _ _)
  have hdrop : (prev.content ++ S).drop prev.content.length = S := List.drop_left _ _
  have hneq : ¬((prev.content ++ S).length = prev.content.length ∧
      prev.content ++ S = prev.content) := fun hc => by
    have := hc.1
    omega
  unfold detect_operations_ultra_fast
  simp only [hlk, hfs]
  rw [if_neg hneq, if_pos ⟨hlength, hpre, by rw [hdrop]; exact hS⟩]
  rw [hdrop]
  unfold handle_append_fast
  simp only [tickClock, operationNew, register_operation]
  cases hl : mapLookup (path_to_string p) st.lastOperation with
  | some prevId =>
    simp only [hl, Operation.with_parents]
    refine ⟨_, _, rfl, rfl, rfl, ?_⟩
    rw [@update_prev_state_some_of_mem p _ prev (by exact hlk) (by exact hlen) _]
    exact mapLookup_insert_self _ _ _
  | none =>
    simp only [hl]
    refine ⟨_, _, rfl, rfl, rfl, ?_⟩
    rw [@update_prev_state_some_of_mem p _ prev (by exact hlk) (by exact hlen) _]
    exact mapLookup_insert_self _ _ _

/-- C4 (confirmed): for a file with snapshot content `C` and observed
new content `C ++ S` with `S` non-empty, each quality-detection path —
the rapid one (`detect_operations_ultra_fast` via `handle_append_fast`)
and the full one (`detect_operations_with_content`) — emits exactly one
`Insert` whose content is `S` and whose position's character offset is
the character count of `C`, and updates the stored snapshot in place to
`extend_snapshot prev S` rather than rebuilding it. -/
theorem C4_append_equivalence (fs : PathT → Option Content) (p : PathT)
    (actor : String) (prev : FileSnapshot) (S : Content) (st : DetectorState)
    (hwf : prev.char_len = charCount prev.content)
    (hlk : mapLookup p st.prevState = some prev)
    (hfs : fs p = some (prev.content ++ S)) (hS : S ≠ [])
    (hlen : st.prevState.length ≤ PREV_CONTENT_LIMIT + 100) :
    (∃ op pos, (detect_operations_ultra_fast fs p actor st).1 = [op] ∧
      op.op_type = .insert pos S (charCount S) ∧
      pos.offset = charCount prev.content ∧
      mapLookup p (detect_operations_ultra_fast fs p actor st).2.prevState
        = some (extend_snapshot prev S)) ∧
    (∃ op pos,
      (detect_operations_with_content fs p actor (some (prev.content ++ S)) st).1 = [op] ∧
      op.op_type = .insert pos S (charCount S) ∧
      pos.offset = charCount prev.content ∧
      mapLookup p
        (detect_operations_with_content fs p actor (some (prev.content ++ S)) st).2.prevState
        = some (extend_snapshot prev S)) := by
  constructor
  · obtain ⟨op, pos, h1, h2, h3, h4⟩ := ultraFast_append fs p actor prev S st hlk hfs hS hlen
    exact ⟨op, pos, h1, h2, hwf ▸ h3, h4⟩
  · obtain ⟨op, pos, h1, h2, h3, h4⟩ := withContent_append fs p actor prev S st hlk hS hlen
    exact ⟨op, pos, h1, h2, hwf ▸ h3, h4⟩

def c4Prev : FileSnapshot := build_snapshot_fast (strBytes "hello")

def c4Fs : PathT → Option Content :=
  fun p => if p = pathA then some (strBytes "hello world") else none

def c4St : DetectorState := { initialState with prevState := [(pathA, c4Prev)] }

/-- Witness for C4 at the concrete transition
`hello → hello world`. -/
theorem C4_append_equivalence_witness :
    (c4Prev.char_len = charCount c4Prev.content ∧
      mapLookup pathA c4St.prevState = some c4Prev ∧
      c4Fs pathA = some (c4Prev.content ++ strBytes " world") ∧
      strBytes " world" ≠ [] ∧
      c4St.prevState.length ≤ PREV_CONTENT_LIMIT + 100) ∧
    ((∃ op pos, (detect_operations_ultra_fast c4Fs pathA "actor" c4St).1 = [op] ∧
      op.op_type = .insert pos (strBytes " world") (charCount (strBytes " world")) ∧
      pos.offset = charCount c4Prev.content ∧
      mapLookup pathA (detect_operations_ultra_fast c4Fs pathA "actor" c4St).2.prevState
        = some (extend_snapshot c4Prev (strBytes " world"))) ∧
    (∃ op pos,
      (detect_operations_with_content c4Fs pathA "actor"
        (some (c4Prev.content ++ strBytes " world")) c4St).1 = [op] ∧
      op.op_type = .insert pos (strBytes " world") (charCount (strBytes " world")) ∧
      pos.offset = charCount c4Prev.content ∧
      mapLookup pathA
        (detect_operations_with_content c4Fs pathA "actor"
          (some (c4Prev.content ++ strBytes " world")) c4St).2.prevState
        = some (extend_snapshot c4Prev (strBytes " world")))) :=
  ⟨⟨by decide, by decide, by decide, by decide, by decide⟩,
    C4_append_equivalence c4Fs pathA "actor" c4Prev (strBytes " world") c4St
      (by decide) (by decide) (by decide) (by decide) (by decide)⟩

/-- The common-suffix length computed inside `compute_change_range_fast`
(restated as a function of the two contents for use in lemmas). -/
def suffixLenOf (old new : Content) : Nat :=
  if old.length - commonPrefixLen old new > 0 ∧ new.length - commonPrefixLen old new > 0 then
    min (commonPrefixLen (old.drop (commonPrefixLen old new)).reverse
        (new.drop (commonPrefixLen old new)).reverse)
      (min (old.length - commonPrefixLen old new) (new.length - commonPrefixLen old new))
  else 0

theorem suffixLenOf_le_left (old new : Content) :
    suffixLenOf old new ≤ old.length - commonPrefixLen old new := by
  unfold suffixLenOf
  split
  · exact le_trans (min_le_right _ _) (min_le_left _ _)
  · omega

theorem suffixLenOf_le_right (old new : Content) :
    suffixLenOf old new ≤ new.length - commonPrefixLen old new := by
  unfold suffixLenOf
  split
  · exact le_trans (min_le_right _ _) (min_le_right _ _)
  · omega

theorem suffixLenOf_drop_eq (old new : Content) :
    old.drop (old.length - suffixLenOf old new)
      = new.drop (new.length - suffixLenOf old new) := by
  unfold suffixLenOf
  split
  · next hrem =>
    set p := commonPrefixLen old new with hp
    set s := min (commonPrefixLen (old.drop p).reverse (new.drop p).reverse)
      (min (old.length - p) (new.length - p)) with hs
    have hple1 : p ≤ old.length := commonPrefixLen_le_left old new
    have hple2 : p ≤ new.length := commonPrefixLen_le_right old new
    have hso : s ≤ old.length - p := le_trans (min_le_right _ _) (min_le_left _ _)
    have hsn : s ≤ new.length - p := le_trans (min_le_right _ _) (min_le_right _ _)
    have hsk : s ≤ commonPrefixLen (old.drop p).reverse (new.drop p).reverse :=
      min_le_left _ _
    have key : (old.drop p).drop ((old.drop p).length - s)
        = (new.drop p).drop ((new.drop p).length - s) := suffix_drop_eq hsk
    rw [List.length_drop, List.length_drop] at key
    rw [List.drop_drop, List.drop_drop] at key
    have e1 : p + (old.length - p - s) = old.length - s := by omega
    have e2 : p + (new.length - p - s) = new.length - s := by omega
    rw [e1, e2] at key
    exact key
  · simp

theorem commonPrefixLen_take_eq (old new : Content) :
    old.take (commonPrefixLen old new) = new.take (commonPrefixLen old new) :=
  commonPrefixLen_take old new


theorem getD_if_lt {x n : Nat} (h : x ≤ n) :
    (if x < n + 1 then some x else none).getD n = x := by
  rw [if_pos (by omega)]
  rfl

theorem getD_if_sub (n S : Nat) :
    (if n - S < n + 1 then some (n - S) else none).getD n = n - S := by
  rw [if_pos (by omega)]
  rfl

theorem compute_change_range_ascii (old new : Content) (s1 s2 : FileSnapshot)
    (h1l : s1.char_len = old.length)
    (h1m : s1.char_to_byte = List.range (old.length + 1))
    (h2l : s2.char_len = new.length)
    (h2m : s2.char_to_byte = List.range (new.length + 1))
    (hne : old ≠ new) :
    compute_change_range_fast old new s1 s2
      = some (commonPrefixLen old new, old.length - suffixLenOf old new,
          commonPrefixLen old new, new.length - suffixLenOf old new) := by
  have hple1 : commonPrefixLen old new ≤ old.length := commonPrefixLen_le_left old new
  have hple2 : commonPrefixLen old new ≤ new.length := commonPrefixLen_le_right old new
  have hzero : ¬(s1.char_len = 0 ∧ s2.char_len = 0) := by
    rw [h1l, h2l]
    intro hc
    exact hne (by
      rw [List.length_eq_zero.mp hc.1, List.length_eq_zero.mp hc.2])
  have hfull : ¬(commonPrefixLen old new = old.length ∧
      commonPrefixLen old new = new.length) := by
    intro hc
    exact hne (eq_of_commonPrefixLen_full hc.1 hc.2)
  unfold compute_change_range_fast
  rw [if_neg hzero]
  simp only [h1m, h2m, h1l, h2l, List.range_eq_nil]
  rw [if_neg (by omega : ¬(old.length + 1 = 0)), if_neg (by omega : ¬(old.length + 1 = 0)),
    if_neg (by omega : ¬(new.length + 1 = 0))]
  rw [findIdx?_range_ge, findIdx?_range_ge, findIdx?_range_ge]
  rw [getD_if_lt hple1]
  rw [getD_if_sub, getD_if_sub]
  rw [if_neg hfull]
  rfl

theorem c2bAt_range {s : FileSnapshot} {n : Nat}
    (hm : s.char_to_byte = List.range (n + 1)) (hc : s.content.length = n)
    {i : Nat} (hi : i ≤ n) : c2bAt s i = i := by
  unfold c2bAt
  rw [hm, hc, List.length_range]
  rw [if_pos (by omega)]
  rw [List.getD_eq_getElem?_getD, List.getElem?_range (by omega)]
  rfl

theorem fast_diff_ops_ascii (p : PathT) (actor : String) (so sn : FileSnapshot)
    (st : DetectorState)
    (hoa : isAsciiB so.content = true) (hol : so.char_len = so.content.length)
    (hoc : so.char_to_byte = [])
    (hnl : sn.char_len = sn.content.length)
    (hnc : sn.char_to_byte = [])
    (hne : so.content ≠ sn.content) :
    ∃ op, (fast_diff_ops p actor so sn st).1 = [op] ∧ op.op_type.isEdit = true ∧
      applyEditSpec so.content op.op_type = some sn.content := by
  have hens1 : ensure_char_mapping so
      = { so with char_to_byte := List.range (so.content.length + 1) } := by
    unfold ensure_char_mapping
    rw [if_pos hoc]
  have hens2 : ensure_char_mapping sn
      = { sn with char_to_byte := List.range (sn.content.length + 1) } := by
    unfold ensure_char_mapping
    rw [if_pos hnc]
  have hcompute := compute_change_range_ascii so.content sn.content
    { so with char_to_byte := List.range (so.content.length + 1) }
    { sn with char_to_byte := List.range (sn.content.length + 1) }
    hol rfl hnl rfl hne
  have hple1 : commonPrefixLen so.content sn.content ≤ so.content.length :=
    commonPrefixLen_le_left _ _
  have hple2 : commonPrefixLen so.content sn.content ≤ sn.content.length :=
    commonPrefixLen_le_right _ _
  have hso : suffixLenOf so.content sn.content
      ≤ so.content.length - commonPrefixLen so.content sn.content :=
    suffixLenOf_le_left _ _
  have hsn : suffixLenOf so.content sn.content
      ≤ sn.content.length - commonPrefixLen so.content sn.content :=
    suffixLenOf_le_right _ _
  have hdropeq := suffixLenOf_drop_eq so.content sn.content
  have htake := commonPrefixLen_take so.content sn.content
  unfold fast_diff_ops
  rw [if_neg (fun h => hne h.2)]
  rw [hens1, hens2]
  simp only []
  rw [hcompute]
  simp only []
  have hc1 : c2bAt { so with char_to_byte := List.range (so.content.length + 1) }
      (commonPrefixLen so.content sn.content) = commonPrefixLen so.content sn.content :=
    by exact c2bAt_range rfl rfl hple1
  have hc2 : c2bAt { so with char_to_byte := List.range (so.content.length + 1) }
      (so.content.length - suffixLenOf so.content sn.content)
      = so.content.length - suffixLenOf so.content sn.content :=
    by exact c2bAt_range rfl rfl (Nat.sub_le _ _)
  have hc3 : c2bAt { sn with char_to_byte := List.range (sn.content.length + 1) }
      (commonPrefixLen so.content sn.content) = commonPrefixLen so.content sn.content :=
    by exact c2bAt_range rfl rfl hple2
  have hc4 : c2bAt { sn with char_to_byte := List.range (sn.content.length + 1) }
      (sn.content.length - suffixLenOf so.content sn.content)
      = sn.content.length - suffixLenOf so.content sn.content :=
    by exact c2bAt_range rfl rfl (Nat.sub_le _ _)
  rw [hc1, hc2, hc3, hc4]
  set P := commonPrefixLen so.content sn.content with hPdef
  set S := suffixLenOf so.content sn.content with hSdef
  have hPo : P ≤ so.content.length - S := by omega
  have hPn : P ≤ sn.content.length - S := by omega
  have hminO : min (so.content.length - S) so.content.length = so.content.length - S :=
    min_eq_left (Nat.sub_le _ _)
  have hminN : min (sn.content.length - S) sn.content.length = sn.content.length - S :=
    min_eq_left (Nat.sub_le _ _)
  have hsliceOlen : (sliceB so.content P (so.content.length - S)).length
      = so.content.length - S - P := by
    unfold sliceB
    rw [List.length_drop, List.length_take, hminO]
  have hsliceNlen : (sliceB sn.content P (sn.content.length - S)).length
      = sn.content.length - S - P := by
    unfold sliceB
    rw [List.length_drop, List.length_take, hminN]
  have hguard : ¬(P = so.content.length - S ∧ P = sn.content.length - S) := by
    intro hc
    apply hne
    have e1 : so.content.take P ++ so.content.drop P = so.content :=
      List.take_append_drop _ _
    have e2 : sn.content.take P ++ sn.content.drop P = sn.content :=
      List.take_append_drop _ _
    have e3 : so.content.drop P = sn.content.drop P := by
      conv_lhs => rw [hc.1]
      conv_rhs => rw [hc.2]
      exact hdropeq
    rw [← e1, htake, e3, e2]
  rw [if_neg hguard]
  by_cases ho : sliceB so.content P (so.content.length - S) = []
  · by_cases hn : sliceB sn.content P (sn.content.length - S) = []
    · exfalso
      apply hguard
      constructor
      · have h0 : so.content.length - S - P = 0 := by
          rw [← hsliceOlen, ho]
          rfl
        omega
      · have h0 : sn.content.length - S - P = 0 := by
          rw [← hsliceNlen, hn]
          rfl
        omega
    · rw [if_pos ho, if_neg hn]
      have hPe : P = so.content.length - S := by
        have h0 : so.content.length - S - P = 0 := by
          rw [← hsliceOlen, ho]
          rfl
        omega
      have edrop : so.content.drop P = sn.content.drop (sn.content.length - S) := by
        rw [hPe]
        exact hdropeq
      have happly : ∀ pos : Position, pos.offset = P →
          applyEditSpec so.content
            (.insert pos (sliceB sn.content P (sn.content.length - S))
              (sn.content.length - S - P))
          = some sn.content := by
        intro pos hpos
        simp only [applyEditSpec]
        rw [hpos, charToByteIdx_ascii hoa, min_eq_left hple1]
        rw [htake, edrop]
        exact congrArg some (take_drop_decomp sn.content hPn)
      simp only [tickClock, operationNew, register_operation]
      cases hl : mapLookup (path_to_string p) st.lastOperation with
      | some prevId =>
        simp only [hl, Operation.with_parents]
        exact ⟨_, rfl, rfl, happly _ rfl⟩
      | none =>
        simp only [hl]
        exact ⟨_, rfl, rfl, happly _ rfl⟩
  · by_cases hn : sliceB sn.content P (sn.content.length - S) = []
    · rw [if_neg ho, if_pos hn]
      have hPe : P = sn.content.length - S := by
        have h0 : sn.content.length - S - P = 0 := by
          rw [← hsliceNlen, hn]
          rfl
        omega
      have hsum : P + (so.content.length - S - P) = so.content.length - S := by omega
      have happly : ∀ pos : Position, pos.offset = P →
          applyEditSpec so.content
            (.delete pos (so.content.length - S - P)) = some sn.content := by
        intro pos hpos
        simp only [applyEditSpec]
        rw [hpos, hsum, charToByteIdx_ascii hoa, charToByteIdx_ascii hoa,
          min_eq_left hple1, hminO]
        rw [htake, hdropeq]
        rw [hPe]
        exact congrArg some (List.take_append_drop _ _)
      simp only [tickClock, operationNew, register_operation]
      cases hl : mapLookup (path_to_string p) st.lastOperation with
      | some prevId =>
        simp only [hl, Operation.with_parents]
        exact ⟨_, rfl, rfl, happly _ rfl⟩
      | none =>
        simp only [hl]
        exact ⟨_, rfl, rfl, happly _ rfl⟩
    · rw [if_neg ho, if_neg hn]
      have hseg : isAsciiB (sliceB so.content P (so.content.length - S)) = true := by
        unfold sliceB
        exact isAsciiB_of_subset hoa
          (List.Subset.trans (List.drop_subset _ _) (List.take_subset _ _))
      have hcc : charCount (sliceB so.content P (so.content.length - S))
          = so.content.length - S - P := by
        rw [charCount_ascii hseg, hsliceOlen]
      have hsum : P + (so.content.length - S - P) = so.content.length - S := by omega
      have happly : ∀ pos : Position, pos.offset = P →
          applyEditSpec so.content
            (.replace pos (sliceB so.content P (so.content.length - S))
              (sliceB sn.content P (sn.content.length - S))) = some sn.content := by
        intro pos hpos
        simp only [applyEditSpec]
        rw [hpos, hcc, hsum, charToByteIdx_ascii hoa, charToByteIdx_ascii hoa,
          min_eq_left hple1, hminO]
        rw [htake, hdropeq]
        exact congrArg some (take_drop_decomp sn.content hPn)
      simp only [tickClock, operationNew, register_operation]
      cases hl : mapLookup (path_to_string p) st.lastOperation with
      | some prevId =>
        simp only [hl, Operation.with_parents]
        exact ⟨_, rfl, rfl, happly _ rfl⟩
      | none =>
        simp only [hl]
        exact ⟨_, rfl, rfl, happly _ rfl⟩

theorem dropWhile_eq_drop_takeWhile (p : Nat → Bool) :
    ∀ l : List Nat, l.dropWhile p = l.drop (l.takeWhile p).length
  | [] => by simp
  | a :: t => by
    by_cases h : p a
    · rw [List.dropWhile_cons, if_pos h, List.takeWhile_cons, if_pos h,
        List.length_cons, List.drop_succ_cons]
      exact dropWhile_eq_drop_takeWhile p t
    · rw [List.dropWhile_cons, if_neg h, List.takeWhile_cons, if_neg h]
      simp

theorem pred_true_of_lt_takeWhile {p : Nat → Bool} {l : List Nat} {i : Nat}
    (hi : i < (l.takeWhile p).length) : p (l.getD i 0) = true := by
  have hlen : i < l.length := lt_of_lt_of_le hi (List.takeWhile_prefix p).length_le
  have h1 : (l.takeWhile p)[i] = l[i] := (List.takeWhile_prefix p).getElem hi
  have h2 : p ((l.takeWhile p)[i]) = true :=
    List.mem_takeWhile_imp (List.getElem_mem hi)
  rw [List.getD_eq_getElem _ _ hlen, ← h1]
  exact h2

theorem pred_false_at_takeWhile_length {p : Nat → Bool} {l : List Nat}
    (ht : (l.takeWhile p).length < l.length) :
    p (l.getD (l.takeWhile p).length 0) = false := by
  have hh : (l.dropWhile p).head? = some (l.getD (l.takeWhile p).length 0) := by
    rw [dropWhile_eq_drop_takeWhile, List.head?_eq_getElem?, List.getElem?_drop]
    rw [Nat.add_zero, List.getD_eq_getElem _ _ ht]
    exact List.getElem?_eq_getElem ht
  have hmatch := List.head?_dropWhile_not p l
  rw [hh] at hmatch
  exact hmatch

theorem sorted_getD_le {l : List Nat} (hs : List.Sorted (fun a b => a < b) l)
    {i j : Nat} (hij : i ≤ j) (hj : j < l.length) : l.getD i 0 ≤ l.getD j 0 := by
  rcases Nat.eq_or_lt_of_le hij with heq | hlt
  · rw [heq]
  · have hi : i < l.length := lt_trans hlt hj
    rw [List.getD_eq_getElem _ _ hi, List.getD_eq_getElem _ _ hj]
    exact le_of_lt (List.pairwise_iff_getElem.mp hs i j hi hj hlt)

theorem filter_range_eq_range {t : Nat} (p : Nat → Bool) :
    ∀ {n : Nat}, t ≤ n → (∀ i, i < n → (p i = true ↔ i < t)) →
      (List.range n).filter p = List.range t := by
  intro n
  induction n with
  | zero => intro ht _; interval_cases t; simp
  | succ m ih =>
    intro ht h
    rw [List.range_succ, List.filter_append]
    by_cases htm : t ≤ m
    · have hpm : p m = false := by
        have := h m (by omega)
        rw [Bool.eq_false_iff]
        intro hc
        exact absurd (this.mp hc) (by omega)
      rw [ih htm (fun i hi => h i (by omega))]
      simp [hpm]
    · have hteq : t = m + 1 := by omega
      have hpm : p m = true := (h m (by omega)).mpr (by omega)
      have hall : (List.range m).filter p = List.range m := by
        apply List.filter_eq_self.mpr
        intro a ha
        rw [List.mem_range] at ha
        exact (h a (by omega)).mpr (by omega)
      rw [hall]
      simp [hpm, hteq, List.range_succ]

/-- C8 (amended): for a snapshot whose `line_starts` is sorted and, when
non-empty, begins with 0 (as every snapshot built by
`build_snapshot_fast` does), the line/column computed by
`line_col_from_snapshot` — the computation used by the quality append
path and by `fast_diff_ops` — equals the claimed formula: line `i + 1`
and column `offset − line_starts[i] + 1` for the largest `i` with
`line_starts[i] ≤ offset`, and `(1, offset + 1)` when `line_starts` is
empty.  The rapid-mode paths (`line_col_fast` and the inline computation
of `handle_append_fast`) do not satisfy this formula. -/
theorem C8_amended (s : FileSnapshot) (o : Nat)
    (hsort : List.Sorted (fun a b => a < b) s.line_starts)
    (hhead : s.line_starts = [] ∨ s.line_starts.head? = some 0) :
    line_col_from_snapshot s o = specLineCol s.line_starts o := by
  rcases hhead with hempty | hhead
  · unfold line_col_from_snapshot specLineCol
    rw [hempty]
    simp
  · have ht1 : 1 ≤ (s.line_starts.takeWhile (fun start => start ≤ o)).length := by
      cases hst : s.line_starts with
      | nil => rw [hst] at hhead; simp at hhead
      | cons a tl =>
        rw [hst] at hhead
        have ha : a = 0 := by simpa using hhead
        rw [List.takeWhile_cons, if_pos (by rw [ha]; simp)]
        simp
    have htle : (s.line_starts.takeWhile (fun start => start ≤ o)).length
        ≤ s.line_starts.length := (List.takeWhile_prefix _).length_le
    have hiff : ∀ i, i < s.line_starts.length →
        ((decide (s.line_starts.getD i 0 ≤ o)) = true
          ↔ i < (s.line_starts.takeWhile (fun start => start ≤ o)).length) := by
      intro i hi
      constructor
      · intro hp
        by_contra hge
        push_neg at hge
        have htlt : (s.line_starts.takeWhile (fun start => start ≤ o)).length
            < s.line_starts.length := lt_of_le_of_lt hge hi
        have hfalse := pred_false_at_takeWhile_length htlt
        have hle := sorted_getD_le hsort hge hi
        rw [decide_eq_true_eq] at hp
        rw [decide_eq_false_iff_not] at hfalse
        exact hfalse (le_trans hle hp)
      · intro hit
        exact pred_true_of_lt_takeWhile hit
    have hfil : (List.range s.line_starts.length).filter
        (fun i => decide (s.line_starts.getD i 0 ≤ o))
        = List.range (s.line_starts.takeWhile (fun start => start ≤ o)).length :=
      filter_range_eq_range _ htle hiff
    unfold line_col_from_snapshot specLineCol
    rw [hfil, List.getLast?_range, if_neg (by omega)]

def c8wSnap : FileSnapshot := build_snapshot_fast (strBytes "ab\ncd\ne")

/-- Witness for C8 (amended) on a concrete three-line snapshot at
offset 4. -/
theorem C8_amended_witness :
    (List.Sorted (fun a b => a < b) c8wSnap.line_starts ∧
      (c8wSnap.line_starts = [] ∨ c8wSnap.line_starts.head? = some 0)) ∧
    line_col_from_snapshot c8wSnap 4 = specLineCol c8wSnap.line_starts 4 :=
  ⟨⟨by decide, by decide⟩, C8_amended c8wSnap 4 (by decide) (by decide)⟩

theorem fast_diff_ops_nil_of_eq (p : PathT) (actor : String)
    (so sn : FileSnapshot) (st : DetectorState)
    (hob : so.byte_len = so.content.length) (hnb : sn.byte_len = sn.content.length)
    (heq : so.content = sn.content) :
    fast_diff_ops p actor so sn st = ([], st) := by
  unfold fast_diff_ops
  rw [if_pos ⟨by rw [hob, hnb, heq], heq⟩]

/-- C1 (amended): diff correctness holds for the full-diff engine
`fast_diff_ops` on ASCII snapshots: every emitted
`Insert`/`Delete`/`Replace` applied at its character offset to the prior
snapshot content yields the new content byte-for-byte; and with rapid
mode disabled, the S3 write (`foo bar baz → foo QUX baz`) emits exactly
one `Replace` at offset 4 with old `bar` and new `QUX`. -/
theorem C1_amended (p : PathT) (actor : String) (so sn : FileSnapshot)
    (st : DetectorState)
    (hoa : isAsciiB so.content = true) (hol : so.char_len = so.content.length)
    (hoc : so.char_to_byte = []) (hob : so.byte_len = so.content.length)
    (hnl : sn.char_len = sn.content.length) (hnc : sn.char_to_byte = [])
    (hnb : sn.byte_len = sn.content.length) :
    (∀ op ∈ (fast_diff_ops p actor so sn st).1,
      op.op_type.isEdit = true ∧
      applyEditSpec so.content op.op_type = some sn.content) ∧
    ((detect_quality_operations true s3Fs pathA "actor" s3St).1.map
        (fun op => op.op_type)
      = [.replace ⟨0, "actor", 4, 1, 5⟩ (strBytes "bar") (strBytes "QUX")]) := by
  constructor
  · by_cases heq : so.content = sn.content
    · rw [fast_diff_ops_nil_of_eq p actor so sn st hob hnb heq]
      intro op hop
      simp at hop
    · obtain ⟨op, hops, hedit, happ⟩ :=
        fast_diff_ops_ascii p actor so sn st hoa hol hoc hnl hnc heq
      rw [hops]
      intro op' hop'
      rw [List.mem_singleton] at hop'
      subst hop'
      exact ⟨hedit, happ⟩
  · decide

/-- Witness for C1 (amended) at the S3 snapshots themselves. -/
theorem C1_amended_witness :
    (isAsciiB s3Snap.content = true ∧ s3Snap.char_len = s3Snap.content.length ∧
      s3Snap.char_to_byte = [] ∧ s3Snap.byte_len = s3Snap.content.length) ∧
    (∀ op ∈ (fast_diff_ops pathA "actor" s3Snap (build_snapshot_fast s3New)
        initialState).1,
      op.op_type.isEdit = true ∧
      applyEditSpec s3Snap.content op.op_type = some (build_snapshot_fast s3New).content) :=
  ⟨⟨by decide, by decide, by decide, by decide⟩,
    (C1_amended pathA "actor" s3Snap (build_snapshot_fast s3New) initialState
      (by decide) (by decide) (by decide) (by decide) (by decide) (by decide)
      (by decide)).1⟩

/-- C2 (amended): `register_operation` links each operation to the
previous `LastOperation` entry and overwrites the entry with the new
operation's id; but a `Remove` event's `FileDelete` is registered only
after the entry has been cleared, so the `FileDelete` carries empty
`parent_ops` and immediately re-creates the entry with its own id — the
entry is not left removed after a `FileDelete`'s emission, and the next
operation's parent is the `FileDelete`'s id. -/
theorem C2_amended :
    (∀ (op : Operation) (st : DetectorState) (e : Nat),
      mapLookup op.file_path st.lastOperation = some e →
      (register_operation op st).1.parent_ops = [e] ∧
      (register_operation op st).1.op_type = op.op_type ∧
      mapLookup op.file_path (register_operation op st).2.lastOperation
        = some (register_operation op st).1.id) ∧
    (∀ (env : Env) (q : PathT) (st : DetectorState),
      is_temp_path q = false → should_track q = true →
      ∃ op, (processRemovePath env q st).ops = [op] ∧
        op.op_type = .fileDelete ∧ op.parent_ops = [] ∧
        mapLookup (path_key q) (processRemovePath env q st).st.lastOperation
          = some op.id) := by
  constructor
  · intro op st e he
    unfold register_operation
    rw [he]
    exact ⟨rfl, rfl, mapLookup_insert_self _ _ _⟩
  · intro env q st htemp htrack
    unfold processRemovePath
    rw [if_neg (by rw [htemp]; exact Bool.false_ne_true)]
    rw [if_pos htrack]
    simp only [operationNew, register_operation, clear_last_operation_entry]
    have hrem : mapLookup (path_to_string q)
        (mapRemove (path_key q)
          (clear_prev_state q { st with tempCache := mapRemove q st.tempCache }).lastOperation)
        = none := mapLookup_remove_self _ _
    rw [hrem]
    exact ⟨_, rfl, rfl, rfl, mapLookup_insert_self _ _ _⟩

def c2wEnv : Env where
  rapidDisabled := false
  fs := fun _ => none
  append := fun _ => .ok true
  actor := "actor"

/-- Witness for C2 (amended): a concrete `Remove` of `a.txt` from a
state whose `LastOperation` holds id 7. -/
theorem C2_amended_witness :
    (is_temp_path pathA = false ∧ should_track pathA = true) ∧
    (∃ op, (processRemovePath c2wEnv pathA
        { initialState with lastOperation := [(path_key pathA, 7)] }).ops = [op] ∧
      op.op_type = .fileDelete ∧ op.parent_ops = [] ∧
      mapLookup (path_key pathA)
        (processRemovePath c2wEnv pathA
          { initialState with lastOperation := [(path_key pathA, 7)] }).st.lastOperation
        = some op.id) :=
  ⟨⟨by decide, by decide⟩,
    C2_amended.2 c2wEnv pathA
      { initialState with lastOperation := [(path_key pathA, 7)] }
      (by decide) (by decide)⟩

/-- C6 (amended): an `append` failure is propagated: `emit_operations`
returns the error of the first failing append, and the event-processing
loop terminates immediately with that error, leaving the remaining
events unprocessed (no log-and-continue). -/
theorem C6_amended :
    (∀ (append : Operation → Except String Bool) (op : Operation)
        (rest : List Operation) (m : String),
      append op = .error m → emitOps append (op :: rest) = some m) ∧
    (∀ (env : Env) (e : FsEvent) (rest : List FsEvent) (st : DetectorState)
        (m : String),
      (processEvent env e st).err = some m →
      runEvents env (e :: rest) st
        = { st := (processEvent env e st).st, ops := (processEvent env e st).ops,
            err := some m }) := by
  constructor
  · intro append op rest m hm
    unfold emitOps
    rw [hm]
  · intro env e rest st m hm
    unfold runEvents
    simp only [hm]

/-- Witness for C6 (amended): a failing append on the `FileDelete` of a
concrete `Remove` event stops the loop before the second event. -/
theorem C6_amended_witness :
    (processEvent c6Env (.remove [pathA]) initialState).err = some "db" ∧
    runEvents c6Env [.remove [pathA], .remove [pathB]] initialState
      = { st := (processEvent c6Env (.remove [pathA]) initialState).st,
          ops := (processEvent c6Env (.remove [pathA]) initialState).ops,
          err := some "db" } :=
  ⟨by decide,
    C6_amended.2 c6Env (.remove [pathA]) [.remove [pathB]] initialState "db"
      (by decide)⟩

theorem sub64_of_le {a b : Nat} (hba : b ≤ a) (ha : a < WRAP64) :
    sub64 a b = a - b := by
  unfold sub64 WRAP64 at *
  omega

/-- C7 (confirmed): on a trackable non-temp path with rapid mode
enabled, a fresh sequence value `s` is drawn from the process-wide
counter; when the per-path cache holds a previous sequence `s'` with
`s − s' < 100` the event is suppressed — the only state change is the
counter increment: no read, no diff, no operation, and the cache entry
is left untouched.  Otherwise the cache entry is set to `(0, s, 0)` and
quality detection runs on the updated state, its operations being
emitted. -/
theorem C7_rapid_dedup (env : Env) (q : PathT) (st : DetectorState)
    (henv : env.rapidDisabled = false)
    (htemp : is_temp_path q = false) (htrack : should_track q = true)
    (hseq : st.rapidSeq < WRAP64) :
    (∀ h s' z, mapLookup q st.hashCache = some (h, s', z) →
      s' ≤ st.rapidSeq → st.rapidSeq - s' < 100 →
      processPath env q st
        = { st := { st with rapidSeq := st.rapidSeq + 1 }, ops := [], err := none }) ∧
    (∀ h s' z, mapLookup q st.hashCache = some (h, s', z) →
      s' ≤ st.rapidSeq → 100 ≤ st.rapidSeq - s' →
      processPath env q st
        = (let st1 : DetectorState := { st with rapidSeq := st.rapidSeq + 1, hashCache := mapInsert q (0, st.rapidSeq, 0) st.hashCache }
           let qp := detect_quality_operations env.rapidDisabled env.fs q env.actor st1
           if qp.1 = [] then { st := qp.2, ops := [], err := none }
           else { st := qp.2, ops := qp.1, err := emitOps env.append qp.1 })) ∧
    (mapLookup q st.hashCache = none →
      processPath env q st
        = (let st1 : DetectorState := { st with rapidSeq := st.rapidSeq + 1, hashCache := mapInsert q (0, st.rapidSeq, 0) st.hashCache }
           let qp := detect_quality_operations env.rapidDisabled env.fs q env.actor st1
           if qp.1 = [] then { st := qp.2, ops := [], err := none }
           else { st := qp.2, ops := qp.1, err := emitOps env.append qp.1 })) := by
  refine ⟨?_, ?_, ?_⟩
  · intro h s' z hlk hle hwin
    unfold processPath
    rw [if_neg (by rw [htemp]; exact Bool.false_ne_true)]
    rw [if_neg (by rw [htrack]; simp)]
    unfold detect_rapid_change
    rw [if_neg (by rw [henv]; exact Bool.false_ne_true)]
    simp only [hlk]
    rw [sub64_of_le hle hseq, if_pos hwin]
  · intro h s' z hlk hle hwin
    unfold processPath
    rw [if_neg (by rw [htemp]; exact Bool.false_ne_true)]
    rw [if_neg (by rw [htrack]; simp)]
    unfold detect_rapid_change
    rw [if_neg (by rw [henv]; exact Bool.false_ne_true)]
    simp only [hlk]
    rw [sub64_of_le hle hseq, if_neg (by omega)]
  · intro hlk
    unfold processPath
    rw [if_neg (by rw [htemp]; exact Bool.false_ne_true)]
    rw [if_neg (by rw [htrack]; simp)]
    unfold detect_rapid_change
    rw [if_neg (by rw [henv]; exact Bool.false_ne_true)]
    simp only [hlk]

def c7wSt : DetectorState :=
  { initialState with rapidSeq := 50, hashCache := [(pathA, (0, 10, 0))] }

/-- Witness for C7 at a concrete suppressed event (cached sequence 10,
current sequence 50, window 40 < 100). -/
theorem C7_rapid_dedup_witness :
    (c2wEnv.rapidDisabled = false ∧ is_temp_path pathA = false ∧
      should_track pathA = true ∧ c7wSt.rapidSeq < WRAP64 ∧
      mapLookup pathA c7wSt.hashCache = some (0, 10, 0) ∧
      (10 : Nat) ≤ c7wSt.rapidSeq ∧ c7wSt.rapidSeq - 10 < 100) ∧
    processPath c2wEnv pathA c7wSt
      = { st := { c7wSt with rapidSeq := c7wSt.rapidSeq + 1 }, ops := [], err := none } :=
  ⟨⟨by decide, by decide, by decide, by decide, by decide, by decide, by decide⟩,
    (C7_rapid_dedup c2wEnv pathA c7wSt (by decide) (by decide) (by decide)
      (by decide)).1 0 10 0 (by decide) (by decide) (by decide)⟩

/-- The bounded-memory invariant of the claim: the Snapshot Store holds
at most `PREV_CONTENT_LIMIT + 100` entries and the temp-content cache at
most `TEMP_CACHE_LIMIT`. -/
def BoundedStores (st : DetectorState) : Prop :=
  st.prevState.length ≤ PREV_CONTENT_LIMIT + 100 ∧
  st.tempCache.length ≤ TEMP_CACHE_LIMIT

theorem length_mapInsert_ge {K V : Type} [DecidableEq K] (k : K) (v : V) :
    ∀ m : List (K × V), m.length ≤ (mapInsert k v m).length
  | [] => by simp [mapInsert]
  | (k', v') :: rest => by
    unfold mapInsert
    split
    · simp
    · simp only [List.length_cons]
      have := length_mapInsert_ge k v rest
      omega

theorem bounded_update_prev_state {st : DetectorState} (h : BoundedStores st)
    (p : PathT) (s? : Option FileSnapshot) :
    BoundedStores (update_prev_state p s? st) :=
  ⟨update_prev_state_length p s? st, by
    rw [(update_prev_state_keeps p s? st).2.1]
    exact h.2⟩

theorem bounded_update_prev_state2 (p : PathT) (s? : Option FileSnapshot)
    (st : DetectorState) (h2 : st.tempCache.length ≤ TEMP_CACHE_LIMIT) :
    BoundedStores (update_prev_state p s? st) :=
  ⟨update_prev_state_length p s? st, by
    rw [(update_prev_state_keeps p s? st).2.1]
    exact h2⟩

theorem bounded_cache_temp_content {st : DetectorState} (h : BoundedStores st)
    (fs : PathT → Option Content) (p : PathT) :
    BoundedStores (cache_temp_content fs p st) := by
  unfold cache_temp_content
  split
  · exact h
  · split
    · exact ⟨h.1, enforceLimit_length _ _⟩
    · exact h

theorem bounded_take_cached_content {st : DetectorState} (h : BoundedStores st)
    (p : PathT) : BoundedStores (take_cached_content p st).2 := by
  unfold take_cached_content
  split
  · exact ⟨h.1, le_trans (length_mapRemove_le _ _) h.2⟩
  · exact h

theorem bounded_move_cached_content {st : DetectorState} (h : BoundedStores st)
    (old new : PathT) : BoundedStores (move_cached_content old new st) := by
  unfold move_cached_content
  split
  · exact h
  · split
    · next entry heq =>
      refine ⟨h.1, ?_⟩
      show (mapInsert new entry (mapRemove old st.tempCache)).length ≤ TEMP_CACHE_LIMIT
      have h1 := length_mapInsert_le new entry (mapRemove old st.tempCache)
      have h2 : (mapRemove old st.tempCache).length + 1 ≤ st.tempCache.length :=
        length_mapRemove_lt (by rw [heq]; rfl)
      have h3 := h.2
      omega
    · exact h

theorem bounded_move_prev_state_entry {st : DetectorState} (h : BoundedStores st)
    (old new : PathT) : BoundedStores (move_prev_state_entry old new st) := by
  unfold move_prev_state_entry
  split
  · exact ⟨le_trans (enforceLimit_length _ _) (by omega), h.2⟩
  · exact h

theorem bounded_fast_diff_ops {st : DetectorState} (h : BoundedStores st)
    (p : PathT) (a : String) (so sn : FileSnapshot) :
    BoundedStores (fast_diff_ops p a so sn st).2 := by
  unfold fast_diff_ops
  split
  · exact h
  · cases hcc : compute_change_range_fast (ensure_char_mapping so).content
      (ensure_char_mapping sn).content (ensure_char_mapping so) (ensure_char_mapping sn) with
    | none => simp only [hcc]; exact h
    | some r =>
      obtain ⟨os, oe, ns, ne⟩ := r
      simp only [hcc]
      split
      · exact h
      · split
        · split
          · exact h
          · exact h
        · split
          · exact h
          · exact h

theorem bounded_handle_append_fast {st : DetectorState} (h : BoundedStores st)
    (p : PathT) (prev : FileSnapshot) (appended : Content) (a : String) :
    BoundedStores (handle_append_fast p prev appended a st).2 := by
  unfold handle_append_fast
  exact bounded_update_prev_state2 _ _ _ h.2

theorem bounded_detect_single_edit_fast {st : DetectorState} (h : BoundedStores st)
    (p : PathT) (prev : FileSnapshot) (nc : Content) (a : String) :
    BoundedStores (detect_single_edit_fast p prev nc a st).2 := by
  unfold detect_single_edit_fast
  split
  · exact bounded_update_prev_state2 _ _ _ h.2
  · exact bounded_update_prev_state2 _ _ _ h.2

theorem bounded_after_emit {st : DetectorState} (fp : String) (t : OperationType)
    (a : String) (h1 : st.prevState.length ≤ PREV_CONTENT_LIMIT + 100)
    (h2 : st.tempCache.length ≤ TEMP_CACHE_LIMIT) :
    BoundedStores
      (register_operation (operationNew fp t a st).1 (operationNew fp t a st).2).2 :=
  ⟨h1, h2⟩

set_option maxHeartbeats 2000000 in
theorem bounded_detect_operations_with_content {st : DetectorState}
    (h : BoundedStores st) (fs : PathT → Option Content) (p : PathT) (a : String)
    (o : Option Content) :
    BoundedStores (detect_operations_with_content fs p a o st).2 := by
  unfold detect_operations_with_content
  have h2 : BoundedStores (take_cached_content p st).2 :=
    bounded_take_cached_content h p
  cases o with
  | some c =>
    simp only []
    repeat' split
    all_goals first
      | exact h
      | exact bounded_after_emit _ _ _ (update_prev_state_length _ _ _) h.2
      | exact ⟨update_prev_state_length _ _ _, h.2⟩
      | exact ⟨update_prev_state_length _ _ _, (bounded_fast_diff_ops h _ _ _ _).2⟩
  | none =>
    simp only []
    repeat' split
    all_goals first
      | exact h2
      | exact bounded_after_emit _ _ _ (update_prev_state_length _ _ _) h2.2
      | exact ⟨update_prev_state_length _ _ _, h2.2⟩
      | exact ⟨update_prev_state_length _ _ _, (bounded_fast_diff_ops h2 _ _ _ _).2⟩

theorem bounded_detect_rapid_change {st : DetectorState} (h : BoundedStores st)
    (rd : Bool) (p : PathT) :
    BoundedStores (detect_rapid_change rd p st).2 := by
  unfold detect_rapid_change
  split
  · exact h
  · cases hlk : mapLookup p st.hashCache with
    | some cached =>
      simp only [hlk]
      split
      · exact h
      · exact h
    | none =>
      simp only [hlk]
      exact h

theorem bounded_detect_operations_ultra_fast {st : DetectorState}
    (h : BoundedStores st) (fs : PathT → Option Content) (p : PathT) (a : String) :
    BoundedStores (detect_operations_ultra_fast fs p a st).2 := by
  unfold detect_operations_ultra_fast
  repeat' split
  all_goals first
    | exact h
    | exact bounded_after_emit _ _ _ (update_prev_state_length _ _ _) h.2
    | exact bounded_handle_append_fast h _ _ _ _
    | exact bounded_detect_single_edit_fast h _ _ _ _
    | exact bounded_detect_operations_with_content h _ _ _ _

theorem bounded_detect_quality_operations {st : DetectorState}
    (h : BoundedStores st) (rd : Bool) (fs : PathT → Option Content) (p : PathT)
    (a : String) : BoundedStores (detect_quality_operations rd fs p a st).2 := by
  unfold detect_quality_operations
  split
  · exact bounded_detect_operations_with_content h _ _ _ _
  · exact bounded_detect_operations_ultra_fast h _ _ _

theorem bounded_processPath {st : DetectorState} (h : BoundedStores st)
    (env : Env) (q : PathT) : BoundedStores (processPath env q st).st := by
  unfold processPath
  split
  · exact bounded_cache_temp_content h _ _
  · split
    · exact h
    · cases hd : detect_rapid_change env.rapidDisabled q st with
    | mk rapid st1 =>
      have hr : BoundedStores st1 := by
        have hx := bounded_detect_rapid_change h env.rapidDisabled q
        rwa [hd] at hx
      simp only [hd]
      cases rapid with
      | none => exact hr
      | some v =>
        simp only []
        cases hq : detect_quality_operations env.rapidDisabled env.fs q env.actor st1 with
        | mk ops st2 =>
          have h2 : BoundedStores st2 := by
            have hx := bounded_detect_quality_operations hr env.rapidDisabled env.fs q env.actor
            rwa [hq] at hx
          simp only [hq]
          split
          · exact h2
          · exact h2

theorem bounded_processRemovePath {st : DetectorState} (h : BoundedStores st)
    (env : Env) (q : PathT) : BoundedStores (processRemovePath env q st).st := by
  unfold processRemovePath
  have hrm : BoundedStores { st with tempCache := mapRemove q st.tempCache } :=
    ⟨h.1, le_trans (length_mapRemove_le _ _) h.2⟩
  split
  · exact h
  · split
    · have hA : (clear_last_operation_entry q (clear_prev_state q
          { st with tempCache := mapRemove q st.tempCache })).prevState.length
          ≤ PREV_CONTENT_LIMIT + 100 := by
        show (update_prev_state q none
          { st with tempCache := mapRemove q st.tempCache }).prevState.length
          ≤ PREV_CONTENT_LIMIT + 100
        exact update_prev_state_length _ _ _
      exact bounded_after_emit _ _ _ hA
        (by
          have hkeep := (update_prev_state_keeps q none
            { st with tempCache := mapRemove q st.tempCache }).2.1
          show (update_prev_state q none
            { st with tempCache := mapRemove q st.tempCache }).tempCache.length
            ≤ TEMP_CACHE_LIMIT
          rw [hkeep]
          exact hrm.2)
    · exact hrm

theorem move_last_operation_entry_keeps (old new : PathT) (st : DetectorState) :
    (move_last_operation_entry old new st).prevState = st.prevState ∧
    (move_last_operation_entry old new st).tempCache = st.tempCache := by
  unfold move_last_operation_entry
  split
  · exact ⟨rfl, rfl⟩
  · exact ⟨rfl, rfl⟩

theorem bounded_handle_rename_transition {st : DetectorState} (h : BoundedStores st)
    (env : Env) (old new : PathT) :
    BoundedStores (handle_rename_transition env old new st).st := by
  unfold handle_rename_transition
  simp only []
  have h1 : BoundedStores (move_cached_content old new (remember_rename_source none st)) :=
    bounded_move_cached_content (show BoundedStores (remember_rename_source none st) from h)
      old new
  by_cases hc1 : is_temp_path old = true ∧ ¬ is_temp_path new = true
  · rw [if_pos hc1]
    split
    · exact ⟨h1.1, le_trans (length_mapRemove_le _ _) h1.2⟩
    · cases hc : take_cached_content new
        (move_cached_content old new (remember_rename_source none st)) with
    | mk taken st2 =>
      have h2 : BoundedStores st2 := by
        have hx := bounded_take_cached_content h1 new
        rwa [hc] at hx
      cases taken with
      | some content =>
        simp only []
        split
        · exact bounded_detect_operations_with_content h2 _ _ _ _
        · exact bounded_detect_operations_with_content h2 _ _ _ _
      | none =>
        simp only []
        exact bounded_processPath h2 _ _
  · rw [if_neg hc1]
    split
    · exact bounded_after_emit _ _ _
        (by
          rw [(move_last_operation_entry_keeps old new _).1]
          exact (bounded_move_prev_state_entry h1 old new).1)
        (by
          rw [(move_last_operation_entry_keeps old new _).2]
          exact (bounded_move_prev_state_entry h1 old new).2)
    · split
      · exact bounded_processPath h1 _ _
      · split
        · exact bounded_after_emit _ _ _
            (show (update_prev_state old none { move_cached_content old new (remember_rename_source none st) with tempCache := mapRemove old (move_cached_content old new (remember_rename_source none st)).tempCache }).prevState.length ≤ PREV_CONTENT_LIMIT + 100 from
              update_prev_state_length _ _ _)
            (by
              show (update_prev_state old none { move_cached_content old new (remember_rename_source none st) with tempCache := mapRemove old (move_cached_content old new (remember_rename_source none st)).tempCache }).tempCache.length ≤ TEMP_CACHE_LIMIT
              rw [(update_prev_state_keeps _ _ _).2.1]
              exact le_trans (length_mapRemove_le _ _) h1.2)
        · exact h1

theorem bounded_foldPaths {f : PathT → DetectorState → StepOut}
    (hf : ∀ q s, BoundedStores s → BoundedStores (f q s).st) :
    ∀ (ps : List PathT) (st : DetectorState), BoundedStores st →
      BoundedStores (foldPaths f ps st).st
  | [], _, h => h
  | p :: rest, st, h => by
    unfold foldPaths
    simp only []
    split
    · exact hf p st h
    · exact bounded_foldPaths hf rest (f p st).st (hf p st h)

theorem bounded_processEvent {st : DetectorState} (h : BoundedStores st)
    (env : Env) (e : FsEvent) : BoundedStores (processEvent env e st).st := by
  cases e with
  | modify paths =>
    exact bounded_foldPaths (fun q s hs => bounded_processPath hs env q) paths st h
  | create paths =>
    exact bounded_foldPaths (fun q s hs => bounded_processPath hs env q) paths st h
  | remove paths =>
    exact bounded_foldPaths (fun q s hs => bounded_processRemovePath hs env q) paths st h
  | renameFrom paths =>
    simp only [processEvent]
    split
    · split
      · exact bounded_cache_temp_content h env.fs _
      · exact h
    · exact h
  | renameTo paths =>
    simp only [processEvent, take_rename_source]
    split
    · exact bounded_handle_rename_transition h env _ _
    · exact h
  | renameBoth paths =>
    simp only [processEvent]
    split
    · exact bounded_handle_rename_transition h env _ _
    · exact h

theorem bounded_runEvents (env : Env) :
    ∀ (es : List FsEvent) (st : DetectorState), BoundedStores st →
      BoundedStores (runEvents env es st).st
  | [], _, h => h
  | e :: rest, st, h => by
    unfold runEvents
    simp only []
    split
    · exact bounded_processEvent h env e
    · exact bounded_runEvents env rest (processEvent env e st).st
        (bounded_processEvent h env e)

theorem length_mapInsert_of_not_mem {K V : Type} [DecidableEq K] (k : K) (v : V) :
    ∀ m : List (K × V), mapLookup k m = none →
      (mapInsert k v m).length = m.length + 1
  | [], _ => by simp [mapInsert]
  | (k', v') :: rest, h => by
    unfold mapLookup at h
    unfold mapInsert
    by_cases he : k' = k
    · rw [if_pos he] at h
      exact absurd h (by simp)
    · rw [if_neg he] at h ⊢
      simp only [List.length_cons]
      rw [length_mapInsert_of_not_mem k v rest h]

theorem mapLookup_replicate_ne {K V : Type} [DecidableEq K] {k k' : K} (v : V)
    (h : k' ≠ k) : ∀ n : Nat, mapLookup k (List.replicate n (k', v)) = none
  | 0 => by simp [mapLookup]
  | n + 1 => by
    rw [List.replicate_succ]
    unfold mapLookup
    rw [if_neg h]
    exact mapLookup_replicate_ne v h n

/-- A detector state whose snapshot store is right at the eviction
threshold (`PREV_CONTENT_LIMIT + 100` entries). -/
def c9BigSt : DetectorState :=
  { initialState with
      prevState := List.replicate (PREV_CONTENT_LIMIT + 100) (["a"], FileSnapshot.mk [] 0 0 [] []) }

/-- A minimal environment: rapid mode on, empty filesystem, appends
succeed. -/
def c9Env : Env where
  rapidDisabled := false
  fs := fun _ => none
  append := fun _ => .ok true
  actor := "actor"

/-- C9: starting from the initial state, after processing any sequence
of events the snapshot store (`PREV_STATE`) holds at most
`PREV_CONTENT_LIMIT + 100 = 2148` entries and the temp-content cache at
most `TEMP_CACHE_LIMIT = 256`; and whenever an insertion pushes the
snapshot store above 2148 entries, `update_prev_state`'s eviction pass
shrinks it to at most `PREV_CONTENT_LIMIT = 2048` entries. -/
theorem C9_bounded_memory (env : Env) (es : List FsEvent) :
    ((runEvents env es initialState).st.prevState.length ≤ PREV_CONTENT_LIMIT + 100 ∧
     (runEvents env es initialState).st.tempCache.length ≤ TEMP_CACHE_LIMIT) ∧
    (∀ (p : PathT) (s : FileSnapshot) (st : DetectorState),
      PREV_CONTENT_LIMIT + 100 < (mapInsert p s st.prevState).length →
      (update_prev_state p (some s) st).prevState.length ≤ PREV_CONTENT_LIMIT) := by
  constructor
  · exact bounded_runEvents env es initialState (by constructor <;> simp [initialState])
  · intro p s st hlt
    unfold update_prev_state
    simp only []
    rw [if_pos (by exact hlt)]
    exact enforceLimit_length _ _

/-- C9 witness: the empty event sequence in a concrete environment, and
a concrete 2148-entry store that an insertion pushes to 2149 entries,
after which eviction leaves at most 2048. -/
theorem C9_bounded_memory_witness :
    ((runEvents c9Env [] initialState).st.prevState.length ≤ PREV_CONTENT_LIMIT + 100 ∧
     (runEvents c9Env [] initialState).st.tempCache.length ≤ TEMP_CACHE_LIMIT) ∧
    (PREV_CONTENT_LIMIT + 100 <
       (mapInsert ["b"] (FileSnapshot.mk [] 0 0 [] []) c9BigSt.prevState).length ∧
     (update_prev_state ["b"] (some (FileSnapshot.mk [] 0 0 [] [])) c9BigSt).prevState.length ≤
       PREV_CONTENT_LIMIT) := by
  have hlt : PREV_CONTENT_LIMIT + 100 <
      (mapInsert ["b"] (FileSnapshot.mk [] 0 0 [] []) c9BigSt.prevState).length := by
    rw [show c9BigSt.prevState =
        List.replicate (PREV_CONTENT_LIMIT + 100) (["a"], FileSnapshot.mk [] 0 0 [] []) from rfl]
    rw [length_mapInsert_of_not_mem _ _ _
      (mapLookup_replicate_ne _ (by decide) _)]
    simp
  exact ⟨(C9_bounded_memory c9Env []).1,
    hlt, (C9_bounded_memory c9Env []).2 ["b"] (FileSnapshot.mk [] 0 0 [] []) c9BigSt hlt⟩

theorem mapLookup_mapRemove {K V : Type} [DecidableEq K] (k : K) (m : List (K × V)) :
    mapLookup k (mapRemove k m) = none := by
  rw [mapLookup_eq_none_iff]
  intro e he
  have := List.of_mem_filter he
  simpa using this

theorem tempCache_take_sub (p : PathT) (st : DetectorState) :
    (take_cached_content p st).2.tempCache.Sublist st.tempCache := by
  unfold take_cached_content
  split
  · exact List.filter_sublist _
  · exact List.Sublist.refl _

theorem tempCache_fast_diff_ops (p : PathT) (a : String) (so sn : FileSnapshot)
    (st : DetectorState) : (fast_diff_ops p a so sn st).2.tempCache = st.tempCache := by
  unfold fast_diff_ops
  split
  · rfl
  · cases hcc : compute_change_range_fast (ensure_char_mapping so).content
      (ensure_char_mapping sn).content (ensure_char_mapping so) (ensure_char_mapping sn) with
    | none => simp only [hcc]
    | some r =>
      obtain ⟨os, oe, ns, ne⟩ := r
      simp only [hcc]
      repeat' split
      all_goals rfl

theorem tempCache_handle_append_fast (p : PathT) (prev : FileSnapshot)
    (ap : Content) (a : String) (st : DetectorState) :
    (handle_append_fast p prev ap a st).2.tempCache = st.tempCache := rfl

theorem tempCache_detect_single_edit_fast (p : PathT) (prev : FileSnapshot)
    (nc : Content) (a : String) (st : DetectorState) :
    (detect_single_edit_fast p prev nc a st).2.tempCache = st.tempCache := by
  unfold detect_single_edit_fast
  split
  · rfl
  · rfl

set_option maxHeartbeats 2000000 in
theorem tempCache_detect_operations_with_content (fs : PathT → Option Content)
    (p : PathT) (a : String) (o : Option Content) (st : DetectorState) :
    (detect_operations_with_content fs p a o st).2.tempCache.Sublist st.tempCache := by
  unfold detect_operations_with_content
  have h2 : (take_cached_content p st).2.tempCache.Sublist st.tempCache :=
    tempCache_take_sub p st
  cases o with
  | some c =>
    simp only []
    repeat' split
    all_goals first
      | exact List.Sublist.refl _
      | rw [(update_prev_state_keeps _ _ _).2.1, tempCache_fast_diff_ops]
  | none =>
    simp only []
    repeat' split
    all_goals first
      | exact h2
      | (rw [(update_prev_state_keeps _ _ _).2.1, tempCache_fast_diff_ops]
         exact h2)

theorem tempCache_detect_rapid_change (rd : Bool) (p : PathT) (st : DetectorState) :
    (detect_rapid_change rd p st).2.tempCache = st.tempCache := by
  unfold detect_rapid_change
  split
  · rfl
  · cases hlk : mapLookup p st.hashCache with
    | some cached =>
      simp only [hlk]
      split
      · rfl
      · rfl
    | none =>
      simp only [hlk]

theorem tempCache_detect_operations_ultra_fast (fs : PathT → Option Content)
    (p : PathT) (a : String) (st : DetectorState) :
    (detect_operations_ultra_fast fs p a st).2.tempCache.Sublist st.tempCache := by
  unfold detect_operations_ultra_fast
  repeat' split
  all_goals first
    | exact List.Sublist.refl _
    | rw [tempCache_handle_append_fast]
    | rw [tempCache_detect_single_edit_fast]
    | exact tempCache_detect_operations_with_content fs p a _ st

theorem tempCache_detect_quality_operations (rd : Bool) (fs : PathT → Option Content)
    (p : PathT) (a : String) (st : DetectorState) :
    (detect_quality_operations rd fs p a st).2.tempCache.Sublist st.tempCache := by
  unfold detect_quality_operations
  split
  · exact tempCache_detect_operations_with_content fs p a none st
  · exact tempCache_detect_operations_ultra_fast fs p a st

theorem tempCache_processPath (env : Env) (q : PathT) (st : DetectorState)
    (hp : is_temp_path q = false) :
    (processPath env q st).st.tempCache.Sublist st.tempCache := by
  unfold processPath
  rw [if_neg (by simp [hp])]
  split
  · exact List.Sublist.refl _
  · cases hd : detect_rapid_change env.rapidDisabled q st with
    | mk rapid st1 =>
      have hr : st1.tempCache = st.tempCache := by
        have hx := tempCache_detect_rapid_change env.rapidDisabled q st
        rwa [hd] at hx
      simp only [hd]
      cases rapid with
      | none =>
        show st1.tempCache.Sublist st.tempCache
        rw [hr]
      | some v =>
        simp only []
        cases hq : detect_quality_operations env.rapidDisabled env.fs q env.actor st1 with
        | mk ops st2 =>
          have hs2 : st2.tempCache.Sublist st1.tempCache := by
            have hx := tempCache_detect_quality_operations env.rapidDisabled env.fs q
              env.actor st1
            rwa [hq] at hx
          have hs2' : st2.tempCache.Sublist st.tempCache := by
            rw [hr] at hs2
            exact hs2
          simp only [hq]
          split
          · exact hs2'
          · exact hs2'

/-- C10: in a rename transition from a temp path onto a tracked
non-temp path, the temp-content cache entry for the target path is
gone afterwards (`take_cached_content` removed it when it was applied,
`mapRemove`d it when the target is untracked, and it was absent
otherwise); in general `take_cached_content` removes the entry it
returns, and once the entry is absent a later `take_cached_content`
yields `none` and leaves the state unchanged, so a later event reads
the file from the filesystem instead of reusing cached content. -/
theorem C10_cache_consumed_once (env : Env) (old new : PathT) (st : DetectorState)
    (h1 : is_temp_path old = true) (h2 : is_temp_path new = false)
    (h3 : should_track new = true) :
    mapLookup new (handle_rename_transition env old new st).st.tempCache = none ∧
    (∀ (q : PathT) (s : DetectorState),
      mapLookup q (take_cached_content q s).2.tempCache = none) ∧
    (∀ (q : PathT) (s : DetectorState),
      mapLookup q s.tempCache = none → take_cached_content q s = (none, s)) := by
  refine ⟨?_, ?_, ?_⟩
  · unfold handle_rename_transition
    simp only []
    rw [if_pos (show is_temp_path old = true ∧ ¬is_temp_path new = true from
      ⟨h1, by simp [h2]⟩)]
    rw [if_neg (show ¬(!should_track new) = true from by simp [h3])]
    cases hl : mapLookup new
        (move_cached_content old new (remember_rename_source none st)).tempCache with
    | some c =>
      simp only [take_cached_content, hl]
      repeat' split
      all_goals
        exact mapLookup_eq_none_of_sublist
          (tempCache_detect_operations_with_content _ _ _ _ _) (mapLookup_mapRemove _ _)
    | none =>
      simp only [take_cached_content, hl]
      exact mapLookup_eq_none_of_sublist (tempCache_processPath env new _ h2) hl
  · intro q s
    unfold take_cached_content
    cases hl : mapLookup q s.tempCache with
    | some c =>
      simp only [hl]
      exact mapLookup_mapRemove q s.tempCache
    | none => exact hl
  · intro q s hq
    unfold take_cached_content
    rw [hq]

/-- C10 witness: renaming `a.txt.tmp` onto the tracked `a.txt` from the
initial state leaves no cache entry for `a.txt`. -/
theorem C10_cache_consumed_once_witness :
    (is_temp_path pathTmp = true ∧ is_temp_path pathA = false ∧
      should_track pathA = true) ∧
    mapLookup pathA
      (handle_rename_transition c9Env pathTmp pathA initialState).st.tempCache = none := by
  refine ⟨⟨by decide, by decide, by decide⟩, ?_⟩
  exact (C10_cache_consumed_once c9Env pathTmp pathA initialState (by decide) (by decide)
    (by decide)).1

/-- The appended tail that takes the S-append counterexample file past
the size limit. -/
def c5S : Content := List.replicate 1000000 98

/-- Prior snapshot of a one-byte file. -/
def c5Prev : FileSnapshot := build_snapshot_fast [97]

/-- The observed new content: the old byte followed by the oversized
appended tail (1,000,001 bytes in total). -/
def c5New : Content := c5Prev.content ++ c5S

def c5Fs : PathT → Option Content := fun q => if q = pathA then some c5New else none

/-- A state tracking the one-byte snapshot for `a.txt`. -/
def c5St : DetectorState := { initialState with prevState := [(pathA, c5Prev)] }

/-- C5 (counterexample): a pure append that takes the file past
`MAX_TRACKED_FILE_BYTES` still emits an operation and still leaves a
snapshot stored for the path, contradicting the claimed unconditional
oversize skip-and-remove policy. -/
theorem C5_counterexample :
    MAX_TRACKED_FILE_BYTES < c5New.length ∧
    (detect_operations_with_content c5Fs pathA "actor" (some c5New) c5St).1 ≠ [] ∧
    mapLookup pathA
      (detect_operations_with_content c5Fs pathA "actor" (some c5New) c5St).2.prevState
      ≠ none := by
  have hlenS : c5S.length = 1000000 := by
    rw [show c5S = List.replicate 1000000 98 from rfl, List.length_replicate]
  have hS : c5S ≠ [] := by
    intro hc
    rw [hc] at hlenS
    simp at hlenS
  obtain ⟨op, pos, hops, hto, hoff, hsnap⟩ :=
    withContent_append c5Fs pathA "actor" c5Prev c5S c5St rfl hS
      (by simp [c5St, PREV_CONTENT_LIMIT])
  have hrw : (some c5New : Option Content) = some (c5Prev.content ++ c5S) := rfl
  refine ⟨?_, ?_, ?_⟩
  · rw [show c5New = c5Prev.content ++ c5S from rfl, List.length_append,
      show c5Prev.content = [97] from rfl, hlenS,
      show ([97] : Content).length = 1 from rfl,
      show MAX_TRACKED_FILE_BYTES = 1000000 from rfl]
    omega
  · rw [hrw, hops]
    simp
  · intro hc
    rw [hrw, hsnap] at hc
    exact Option.noConfusion hc

/-- C5 (amended): the oversize policy as implemented. (1) With no
existing snapshot, a strictly oversized content is skipped: nothing is
emitted and no snapshot is created. (2) With an existing snapshot, when
the change is neither the identity nor an append, a strictly oversized
content emits nothing and the snapshot is removed. (3) But a pure
append past the limit bypasses the check entirely: it still emits its
`Insert` and still stores the extended snapshot. -/
theorem C5_amended :
    (∀ (fs : PathT → Option Content) (p : PathT) (a : String) (st : DetectorState)
       (c : Content), mapLookup p st.prevState = none →
       MAX_TRACKED_FILE_BYTES < c.length →
       detect_operations_with_content fs p a (some c) st = ([], st)) ∧
    (∀ (fs : PathT → Option Content) (p : PathT) (a : String) (st : DetectorState)
       (c : Content) (prev : FileSnapshot),
       mapLookup p st.prevState = some prev →
       ¬(c.length = prev.content.length ∧ c = prev.content) →
       ¬(c.length > prev.content.length ∧ prev.content.isPrefixOf c = true) →
       MAX_TRACKED_FILE_BYTES < c.length →
       (detect_operations_with_content fs p a (some c) st).1 = [] ∧
       mapLookup p
         (detect_operations_with_content fs p a (some c) st).2.prevState = none) ∧
    (∀ (fs : PathT → Option Content) (p : PathT) (a : String) (st : DetectorState)
       (prev : FileSnapshot) (S : Content),
       mapLookup p st.prevState = some prev → S ≠ [] →
       st.prevState.length ≤ PREV_CONTENT_LIMIT + 100 →
       MAX_TRACKED_FILE_BYTES < (prev.content ++ S).length →
       (detect_operations_with_content fs p a (some (prev.content ++ S)) st).1 ≠ [] ∧
       mapLookup p
         (detect_operations_with_content fs p a (some (prev.content ++ S)) st).2.prevState
         = some (extend_snapshot prev S)) := by
  refine ⟨?_, ?_, ?_⟩
  · intro fs p a st c hlk hbig
    unfold detect_operations_with_content
    simp only [hlk]
    rw [if_pos (show c.length > MAX_TRACKED_FILE_BYTES from hbig)]
  · intro fs p a st c prev hlk h2 h3 hbig
    have hE : detect_operations_with_content fs p a (some c) st
        = ([], update_prev_state p none st) := by
      unfold detect_operations_with_content
      simp only [hlk]
      rw [if_neg h2, if_neg h3,
        if_pos (show (build_snapshot_fast c).byte_len > MAX_TRACKED_FILE_BYTES from hbig)]
    rw [hE]
    exact ⟨rfl, update_prev_state_none_lookup p st⟩
  · intro fs p a st prev S hlk hS hlen hbig
    obtain ⟨op, pos, hops, hto, hoff, hsnap⟩ := withContent_append fs p a prev S st hlk hS hlen
    constructor
    · rw [hops]
      simp
    · exact hsnap

/-- C5 witness: a 1,000,001-byte content is skipped with no snapshot
created from the initial state, and with the one-byte snapshot in place
(a non-append change) it is dropped and the snapshot removed. -/
theorem C5_amended_witness :
    (MAX_TRACKED_FILE_BYTES < (List.replicate 1000001 98 : Content).length ∧
     mapLookup pathA initialState.prevState = none ∧
     mapLookup pathA c5St.prevState = some c5Prev) ∧
    detect_operations_with_content c5Fs pathA "actor"
      (some (List.replicate 1000001 98)) initialState = ([], initialState) ∧
    (detect_operations_with_content c5Fs pathA "actor"
      (some (List.replicate 1000001 98)) c5St).1 = [] ∧
    mapLookup pathA (detect_operations_with_content c5Fs pathA "actor"
      (some (List.replicate 1000001 98)) c5St).2.prevState = none := by
  have hbig : MAX_TRACKED_FILE_BYTES < (List.replicate 1000001 98 : Content).length := by
    rw [List.length_replicate, show MAX_TRACKED_FILE_BYTES = 1000000 from rfl]
    omega
  have hlk : mapLookup pathA c5St.prevState = some c5Prev := rfl
  have h2 : ¬((List.replicate 1000001 98 : Content).length = c5Prev.content.length ∧
      List.replicate 1000001 98 = c5Prev.content) := by
    intro hc
    have := hc.1
    rw [show c5Prev.content = [97] from rfl, List.length_replicate,
      show ([97] : Content).length = 1 from rfl] at this
    omega
  have h3 : ¬((List.replicate 1000001 98 : Content).length > c5Prev.content.length ∧
      c5Prev.content.isPrefixOf (List.replicate 1000001 98) = true) := by
    intro hc
    have hb := hc.2
    rw [show c5Prev.content = [97] from rfl, List.replicate_succ] at hb
    simp [List.isPrefixOf] at hb
  have hc2 := (C5_amended).2.1 c5Fs pathA "actor" c5St (List.replicate 1000001 98)
    c5Prev hlk h2 h3 hbig
  exact ⟨⟨hbig, rfl, hlk⟩,
    (C5_amended).1 c5Fs pathA "actor" initialState _ rfl hbig, hc2.1, hc2.2⟩

theorem register_operation_path (op : Operation) (st : DetectorState) :
    (register_operation op st).1.file_path = op.file_path := by
  unfold register_operation
  cases mapLookup op.file_path st.lastOperation with
  | some q => rfl
  | none => rfl

theorem mem_fast_diff_ops_path (p : PathT) (a : String) (so sn : FileSnapshot)
    (st : DetectorState) :
    ∀ op ∈ (fast_diff_ops p a so sn st).1, op.file_path = path_to_string p := by
  unfold fast_diff_ops
  split
  · intro op hop
    exact absurd hop (List.not_mem_nil _)
  · cases hcc : compute_change_range_fast (ensure_char_mapping so).content
      (ensure_char_mapping sn).content (ensure_char_mapping so) (ensure_char_mapping sn) with
    | none =>
      simp only [hcc]
      intro op hop
      exact absurd hop (List.not_mem_nil _)
    | some r =>
      obtain ⟨os, oe, ns, ne⟩ := r
      simp only [hcc]
      repeat' split
      all_goals intro op hop
      all_goals first
        | exact absurd hop (List.not_mem_nil _)
        | (rw [List.mem_singleton] at hop
           subst hop
           exact (register_operation_path _ _).trans rfl)

set_option maxHeartbeats 2000000 in
theorem mem_withContent_path (fs : PathT → Option Content) (p : PathT) (a : String)
    (o : Option Content) (st : DetectorState) :
    ∀ op ∈ (detect_operations_with_content fs p a o st).1,
      op.file_path = path_to_string p := by
  unfold detect_operations_with_content
  cases o with
  | some c =>
    simp only []
    repeat' split
    all_goals intro op hop
    all_goals first
      | exact absurd hop (List.not_mem_nil _)
      | (rw [List.mem_singleton] at hop
         subst hop
         exact (register_operation_path _ _).trans rfl)
      | exact mem_fast_diff_ops_path p a _ _ _ op hop
  | none =>
    simp only []
    repeat' split
    all_goals intro op hop
    all_goals first
      | exact absurd hop (List.not_mem_nil _)
      | (rw [List.mem_singleton] at hop
         subst hop
         exact (register_operation_path _ _).trans rfl)
      | exact mem_fast_diff_ops_path p a _ _ _ op hop

theorem applyEditSpec_insert_end {old : Content} (pos : Position) (S : Content) (k : Nat)
    (hoa : isAsciiB old = true) (hoff : pos.offset = old.length) :
    applyEditSpec old (.insert pos S k) = some (old ++ S) := by
  simp only [applyEditSpec]
  rw [hoff, charToByteIdx_ascii hoa, Nat.min_self, List.take_length, List.drop_length,
    List.append_nil]

set_option maxHeartbeats 2000000 in
/-- Quality detection on an existing ASCII snapshot with a differing,
size-respecting new content emits exactly one edit operation
(`Insert`/`Delete`/`Replace`, never a `FileCreate`) for the path, and
applying its payload to the old content reproduces the new content. -/
theorem withContent_edit (fs : PathT → Option Content) (p : PathT) (a : String)
    (prev : FileSnapshot) (C : Content) (st : DetectorState)
    (hlk : mapLookup p st.prevState = some prev)
    (hlen : st.prevState.length ≤ PREV_CONTENT_LIMIT + 100)
    (hoa : isAsciiB prev.content = true)
    (hol : prev.char_len = prev.content.length)
    (hoc : prev.char_to_byte = [])
    (hna : isAsciiB C = true)
    (hne : C ≠ prev.content)
    (hsize : C.length ≤ MAX_TRACKED_FILE_BYTES) :
    ∃ op, (detect_operations_with_content fs p a (some C) st).1 = [op] ∧
      op.op_type.isEdit = true ∧
      op.file_path = path_to_string p ∧
      applyEditSpec prev.content op.op_type = some C := by
  by_cases happ : C.length > prev.content.length ∧ prev.content.isPrefixOf C = true
  · obtain ⟨t, ht⟩ := List.isPrefixOf_iff_prefix.mp happ.2
    have hC : prev.content ++ C.drop prev.content.length = C := by
      conv_lhs => rw [← ht]
      rw [List.drop_left]
      exact ht
    have hS : C.drop prev.content.length ≠ [] := by
      intro h0
      have hl0 := congrArg List.length h0
      rw [List.length_drop] at hl0
      simp at hl0
      omega
    obtain ⟨op, pos, hops, hto, hoff, hsnap⟩ :=
      withContent_append fs p a prev (C.drop prev.content.length) st hlk hS hlen
    rw [hC] at hops
    refine ⟨op, hops, ?_, ?_, ?_⟩
    · rw [hto]
      rfl
    · exact mem_withContent_path fs p a (some C) st op
        (by rw [hops]; exact List.mem_singleton_self _)
    · rw [hto, applyEditSpec_insert_end pos _ _ hoa (by rw [hoff, hol]), hC]
  · have hne2 : ¬(C.length = prev.content.length ∧ C = prev.content) := fun hc => hne hc.2
    have hsnapb : (build_snapshot_fast C).char_len = (build_snapshot_fast C).content.length := by
      show (if isAsciiB C = true then C.length else charCount C) = C.length
      rw [if_pos hna]
    have hsnapc : (build_snapshot_fast C).char_to_byte = [] := by
      show (if isAsciiB C = true then [] else charBoundaries C ++ [C.length]) = []
      rw [if_pos hna]
    obtain ⟨op, hfo, hedit, happly⟩ :=
      fast_diff_ops_ascii p a prev (build_snapshot_fast C) st hoa hol hoc hsnapb hsnapc
        (fun h => hne (by exact h.symm))
    have hE : (detect_operations_with_content fs p a (some C) st).1
        = (fast_diff_ops p a prev (build_snapshot_fast C) st).1 := by
      unfold detect_operations_with_content
      simp only [hlk]
      rw [if_neg hne2, if_neg happ,
        if_neg (show ¬((build_snapshot_fast C).byte_len > MAX_TRACKED_FILE_BYTES) from by
          show ¬(C.length > MAX_TRACKED_FILE_BYTES)
          omega)]
    refine ⟨op, by rw [hE]; exact hfo, hedit, ?_, happly⟩
    exact mem_withContent_path fs p a (some C) st op
      (by rw [hE, hfo]; exact List.mem_singleton_self _)

theorem processPath_temp (env : Env) (T : PathT) (st : DetectorState)
    (hT : is_temp_path T = true) :
    processPath env T st
      = { st := cache_temp_content env.fs T st, ops := [], err := none } := by
  unfold processPath
  rw [if_pos hT]

theorem processRemovePath_temp (env : Env) (T : PathT) (st : DetectorState)
    (hT : is_temp_path T = true) :
    processRemovePath env T st = { st := st, ops := [], err := none } := by
  unfold processRemovePath
  rw [if_pos hT]

theorem cache_temp_content_empty (fs : PathT → Option Content) (T : PathT)
    (st : DetectorState) (C : Content) (hT : is_temp_path T = true)
    (hC : fs T = some C) (h0 : st.tempCache = []) :
    cache_temp_content fs T st = { st with tempCache := [(T, C)] } := by
  unfold cache_temp_content
  rw [if_neg (by simp [hT])]
  simp only [hC, h0]
  rw [show mapInsert T C ([] : List (PathT × Content)) = [(T, C)] from rfl,
    enforceLimit_of_le
      (show ([(T, C)] : List (PathT × Content)).length ≤ TEMP_CACHE_LIMIT by
        simp [TEMP_CACHE_LIMIT])]

theorem foldPaths_single_ok {f : PathT → DetectorState → StepOut} (T : PathT)
    (st : DetectorState) (h : (f T st).err = none) :
    foldPaths f [T] st
      = { st := (f T st).st, ops := (f T st).ops ++ [], err := none } := by
  unfold foldPaths
  simp only [h]
  rfl

theorem runEvents_cons_ok {env : Env} {e : FsEvent} {es : List FsEvent}
    {st : DetectorState} {r : StepOut} (h : processEvent env e st = r)
    (hok : r.err = none) :
    runEvents env (e :: es) st
      = { st := (runEvents env es r.st).st,
          ops := r.ops ++ (runEvents env es r.st).ops,
          err := (runEvents env es r.st).err } := by
  conv_lhs => rw [runEvents]
  simp only [h, hok]

/-- The backup path removed at the end of the atomic save (`~` suffix
makes it a temp path). -/
def c3sTb : PathT := ["a.txt~"]

/-- Environment of spec scenario S4: the editor has written
`hello world` to `a.txt.tmp`; appends succeed. -/
def c3sEnv : Env where
  rapidDisabled := false
  fs := fun q => if q = pathTmp then some (strBytes "hello world") else none
  append := fun _ => .ok true
  actor := "actor"

/-- Prior snapshot of `a.txt`: `hello`. -/
def c3sPrev : FileSnapshot := build_snapshot_fast (strBytes "hello")

def c3sSt : DetectorState := { initialState with prevState := [(pathA, c3sPrev)] }

/-- The single operation the S4 atomic save emits: an `Insert` of
`" world"` (6 characters) at character offset 5, line 1, column 6. -/
def c3sOp : Operation where
  id := 0
  actor_id := "actor"
  file_path := "a.txt"
  op_type := .insert (Position.mk' 1 6 5 "actor" 0) (strBytes " world") 6
  parent_ops := []

set_option maxHeartbeats 4000000 in
/-- C3 (amended): for a tracked file `F` with an existing ASCII
snapshot, an editor atomic save — write temp `T`, rename `T → F`
(delivered as one rename event), remove the backup `Tb` — whose
content differs from the snapshot and respects the size limit emits
exactly one operation in total: an `Insert`/`Delete`/`Replace` for `F`
(never a `FileCreate`, and nothing under the temp paths) whose payload
applied to the snapshot reproduces the new content. Concretely (spec
S4), with prior snapshot `hello` and temp content `hello world` the
save emits exactly one `Insert` of `" world"` at character offset 5. -/
theorem C3_amended :
    (∀ (env : Env) (T F Tb : PathT) (st : DetectorState) (prev : FileSnapshot)
       (C : Content),
      is_temp_path T = true → is_temp_path Tb = true →
      is_temp_path F = false → should_track F = true →
      env.fs T = some C →
      (∀ o, env.append o = Except.ok true) →
      st.tempCache = [] →
      mapLookup F st.prevState = some prev →
      st.prevState.length ≤ PREV_CONTENT_LIMIT + 100 →
      isAsciiB prev.content = true →
      prev.char_len = prev.content.length →
      prev.char_to_byte = [] →
      isAsciiB C = true →
      C ≠ prev.content →
      C.length ≤ MAX_TRACKED_FILE_BYTES →
      ∃ op,
        (runEvents env [.modify [T], .renameBoth [T, F], .remove [Tb]] st).ops = [op] ∧
        (runEvents env [.modify [T], .renameBoth [T, F], .remove [Tb]] st).err = none ∧
        op.file_path = path_to_string F ∧
        op.op_type.isEdit = true ∧
        applyEditSpec prev.content op.op_type = some C) ∧
    ((runEvents c3sEnv [.modify [pathTmp], .renameBoth [pathTmp, pathA], .remove [c3sTb]]
        c3sSt).ops = [c3sOp] ∧
      c3sOp.op_type = .insert (Position.mk' 1 6 5 "actor" 0) (strBytes " world") 6) := by
  constructor
  · intro env T F Tb st prev C hT hTb hF hFt hfsT happE htc0 hlk hplen hoa hol hoc hna
      hneC hsize
    have hTF : T ≠ F := by
      intro h
      rw [h, hF] at hT
      exact Bool.noConfusion hT
    have h1 : cache_temp_content env.fs T st = { st with tempCache := [(T, C)] } :=
      cache_temp_content_empty env.fs T st C hT hfsT htc0
    have hP1 : processPath env T st
        = { st := { st with tempCache := [(T, C)] }, ops := [], err := none } := by
      rw [processPath_temp env T st hT, h1]
    have hEv1 : processEvent env (.modify [T]) st
        = { st := { st with tempCache := [(T, C)] }, ops := [], err := none } := by
      show foldPaths (processPath env) [T] st = _
      rw [foldPaths_single_ok T st (by rw [hP1]), hP1]
      rfl
    have hlkT : mapLookup T ([(T, C)] : List (PathT × Content)) = some C :=
      mapLookup_insert_self T C []
    have hrmT : mapRemove T ([(T, C)] : List (PathT × Content)) = [] := by
      simp [mapRemove]
    have hmv : move_cached_content T F
        (remember_rename_source none { st with tempCache := [(T, C)] })
        = { st with tempCache := [(F, C)], renameSource := none } := by
      unfold move_cached_content
      rw [if_neg hTF]
      simp only [show (remember_rename_source none
          { st with tempCache := [(T, C)] }).tempCache = [(T, C)] from rfl, hlkT, hrmT]
      rw [show mapInsert F C ([] : List (PathT × Content)) = [(F, C)] from rfl]
      rfl
    have hlkF : mapLookup F ([(F, C)] : List (PathT × Content)) = some C :=
      mapLookup_insert_self F C []
    have hrmF : mapRemove F ([(F, C)] : List (PathT × Content)) = [] := by
      simp [mapRemove]
    have htk : take_cached_content F { st with tempCache := [(F, C)], renameSource := none }
        = (some C, { st with tempCache := [], renameSource := none }) := by
      unfold take_cached_content
      simp only [show ({ st with tempCache := [(F, C)], renameSource := none }
          : DetectorState).tempCache = [(F, C)] from rfl, hlkF, hrmF]
    obtain ⟨op, hops, hedit, hpath, happly⟩ :=
      withContent_edit env.fs F env.actor prev C
        { st with tempCache := [], renameSource := none }
        (show mapLookup F ({ st with tempCache := [], renameSource := none }
          : DetectorState).prevState = some prev from hlk)
        (show ({ st with tempCache := [], renameSource := none }
          : DetectorState).prevState.length ≤ PREV_CONTENT_LIMIT + 100 from hplen)
        hoa hol hoc hna hneC hsize
    have hemit : emitOps env.append [op] = none := by
      unfold emitOps
      rw [happE op]
      rfl
    have hren : handle_rename_transition env T F { st with tempCache := [(T, C)] }
        = { st := (detect_operations_with_content env.fs F env.actor (some C)
              { st with tempCache := [], renameSource := none }).2,
            ops := [op], err := none } := by
      unfold handle_rename_transition
      simp only []
      rw [if_pos (show is_temp_path T = true ∧ ¬is_temp_path F = true from
        ⟨hT, by simp [hF]⟩)]
      rw [if_neg (show ¬(!should_track F) = true from by simp [hFt])]
      rw [hmv]
      simp only [htk]
      cases hdet : detect_operations_with_content env.fs F env.actor (some C)
          { st with tempCache := [], renameSource := none } with
      | mk ops2 st4 =>
        rw [hdet] at hops
        simp only [] at hops
        subst hops
        rw [if_neg (show ¬([op] = []) from by simp), hemit]
    have hEv2 : processEvent env (.renameBoth [T, F]) { st with tempCache := [(T, C)] }
        = { st := (detect_operations_with_content env.fs F env.actor (some C)
              { st with tempCache := [], renameSource := none }).2,
            ops := [op], err := none } := hren
    have hP3 : processRemovePath env Tb
        (detect_operations_with_content env.fs F env.actor (some C)
          { st with tempCache := [], renameSource := none }).2
        = { st := (detect_operations_with_content env.fs F env.actor (some C)
              { st with tempCache := [], renameSource := none }).2,
            ops := [], err := none } :=
      processRemovePath_temp env Tb _ hTb
    have hEv3 : processEvent env (.remove [Tb])
        (detect_operations_with_content env.fs F env.actor (some C)
          { st with tempCache := [], renameSource := none }).2
        = { st := (detect_operations_with_content env.fs F env.actor (some C)
              { st with tempCache := [], renameSource := none }).2,
            ops := [], err := none } := by
      show foldPaths (processRemovePath env) [Tb] _ = _
      rw [foldPaths_single_ok Tb _ (by rw [hP3]), hP3]
      rfl
    have hrun : runEvents env [.modify [T], .renameBoth [T, F], .remove [Tb]] st
        = { st := (detect_operations_with_content env.fs F env.actor (some C)
              { st with tempCache := [], renameSource := none }).2,
            ops := [op], err := none } := by
      rw [runEvents_cons_ok hEv1 rfl]
      rw [show ({ st := { st with tempCache := [(T, C)] }, ops := [], err := none }
          : StepOut).st = { st with tempCache := [(T, C)] } from rfl]
      rw [runEvents_cons_ok hEv2 rfl]
      rw [runEvents_cons_ok hEv3 rfl]
      rfl
    exact ⟨op, by rw [hrun], by rw [hrun], hpath, hedit, happly⟩
  · exact ⟨by decide, rfl⟩

/-- C3 witness: the S4 fixture satisfies every hypothesis of the
amended atomic-save theorem, and the save emits exactly one edit
reproducing `hello world`. -/
theorem C3_amended_witness :
    (is_temp_path pathTmp = true ∧ is_temp_path c3sTb = true ∧
     is_temp_path pathA = false ∧ should_track pathA = true ∧
     c3sEnv.fs pathTmp = some (strBytes "hello world") ∧
     c3sSt.tempCache = [] ∧
     mapLookup pathA c3sSt.prevState = some c3sPrev ∧
     c3sSt.prevState.length ≤ PREV_CONTENT_LIMIT + 100 ∧
     isAsciiB c3sPrev.content = true ∧
     c3sPrev.char_len = c3sPrev.content.length ∧
     c3sPrev.char_to_byte = [] ∧
     isAsciiB (strBytes "hello world") = true ∧
     strBytes "hello world" ≠ c3sPrev.content ∧
     (strBytes "hello world").length ≤ MAX_TRACKED_FILE_BYTES) ∧
    (∃ op,
      (runEvents c3sEnv [.modify [pathTmp], .renameBoth [pathTmp, pathA], .remove [c3sTb]]
        c3sSt).ops = [op] ∧
      (runEvents c3sEnv [.modify [pathTmp], .renameBoth [pathTmp, pathA], .remove [c3sTb]]
        c3sSt).err = none ∧
      op.file_path = path_to_string pathA ∧
      op.op_type.isEdit = true ∧
      applyEditSpec c3sPrev.content op.op_type = some (strBytes "hello world")) := by
  refine ⟨⟨by decide, by decide, by decide, by decide, by decide, by decide, by decide,
    by decide, by decide, by decide, by decide, by decide, by decide, by decide⟩, ?_⟩
  exact (C3_amended).1 c3sEnv pathTmp pathA c3sTb c3sSt c3sPrev (strBytes "hello world")
    (by decide) (by decide) (by decide) (by decide) (by decide) (fun o => rfl) (by decide)
    (by decide) (by decide) (by decide) (by decide) (by decide) (by decide) (by decide)
    (by decide)
